import Mathlib

/-!
Verification development for the Empyrion-Helper backend (backend.py).

The definitions below are a shallow embedding of the Worker class of
backend.py: Python strings become String, Python dicts (which preserve
insertion order and have unique keys) become association lists
List (String × _) with an order-preserving upsert, the SQLite players
table becomes an association list keyed by steam id, the FTP directory
becomes an association list from file name to file content, and
datetime timestamps become integers (seconds).  Fallible operations
return Option.  Each definition is translated from the corresponding
Python function, which is named in its doc comment.
-/

namespace EmpyrionHelper

/-! ## Python string primitives -/

/-- Whitespace characters stripped by the Python str.strip method. -/
def isPySpace (c : Char) : Bool :=
  c = ' ' || c = '\t' || c = '\n' || c = '\r' || c = '\x0b' || c = '\x0c'

/-- Strip isPySpace characters from both ends of a character list. -/
def stripChars (l : List Char) : List Char :=
  ((l.dropWhile isPySpace).reverse.dropWhile isPySpace).reverse

/-- Model of the Python str.strip() method (no argument form). -/
def pyStrip (s : String) : String := String.mk (stripChars s.data)

/-- Model of Python str.splitlines() on character lists: split on a line
boundary (LF, CR, or CRLF counting as one boundary); a trailing boundary
does not produce a final empty line. -/
def splitlinesChars : List Char → List (List Char)
  | [] => []
  | '\r' :: '\n' :: rest => [] :: splitlinesChars rest
  | '\r' :: rest => [] :: splitlinesChars rest
  | '\n' :: rest => [] :: splitlinesChars rest
  | c :: rest =>
    match splitlinesChars rest with
    | [] => [[c]]
    | l :: ls => (c :: l) :: ls

/-- Model of Python str.splitlines() on strings. -/
def pySplitlines (s : String) : List String :=
  (splitlinesChars s.data).map String.mk

/-- Model of the Python str.startswith method. -/
def pyStartsWith (s t : String) : Bool := t.data.isPrefixOf s.data

/-- Model of the Python str.endswith method. -/
def pyEndsWith (s t : String) : Bool := t.data.reverse.isPrefixOf s.data.reverse

/-- Contiguous-sublist test on lists, used to model the Python
membership test on strings. -/
def listHasSub [DecidableEq α] (needle : List α) : List α → Bool
  | [] => needle.isEmpty
  | c :: rest => needle.isPrefixOf (c :: rest) || listHasSub needle rest

/-- Model of the Python expression (t in s) on strings. -/
def pyIn (t s : String) : Bool := listHasSub t.data s.data

/-- Lowercase a character list (ASCII model of Python str.lower()). -/
def lowerChars (l : List Char) : List Char := l.map Char.toLower

/-- Numeric value of a digit list. -/
def natOfDigitsAcc : Nat → List Char → Nat
  | acc, [] => acc
  | acc, c :: rest => natOfDigitsAcc (acc * 10 + (c.toNat - 48)) rest

/-- Numeric value of a digit list, most significant digit first. -/
def natOfDigits (l : List Char) : Nat := natOfDigitsAcc 0 l

/-- Model of the Python int() constructor on strings: optional sign in
front of a nonempty digit run; anything else raises ValueError (none). -/
def pyIntOfString (s : String) : Option Int :=
  match stripChars s.data with
  | [] => none
  | '-' :: ds =>
    if ds ≠ [] ∧ ds.all Char.isDigit then some (-(natOfDigits ds : Int)) else none
  | '+' :: ds =>
    if ds ≠ [] ∧ ds.all Char.isDigit then some ((natOfDigits ds : Int)) else none
  | ds =>
    if ds.all Char.isDigit then some ((natOfDigits ds : Int)) else none

/-- Second field of the Python expression s.split(sep)[1] with sep a
single colon: the text after the first colon and before the next. -/
def splitColonSecond (s : String) : String :=
  String.mk (((s.data.dropWhile (· ≠ ':')).drop 1).takeWhile (· ≠ ':'))

/-- Characters of the Python regex class backslash-s. -/
def isRegexSpace (c : Char) : Bool :=
  c = ' ' || c = '\t' || c = '\n' || c = '\r' || c = '\x0b' || c = '\x0c'

/-- Characters of the Python regex class backslash-w (ASCII model). -/
def isWordChar (c : Char) : Bool := c.isAlphanum || c = '_'

/-- Characters of the Python regex class backslash-d (ASCII model). -/
def isDigitChar (c : Char) : Bool := c.isDigit

/-- A single-quote character, written via its code point. -/
def squote : String := String.mk [Char.ofNat 39]

/-! ## Ordered dictionaries (Python dict model)

Python dicts preserve insertion order and keep one value per key.
An upsert on an association list: replace the value in place when the
key is present, append at the end otherwise. -/

/-- Dictionary lookup: first value stored under the key. -/
def dictFind (d : List (String × α)) (k : String) : Option α :=
  match d with
  | [] => none
  | (k', v) :: rest => if k' = k then some v else dictFind rest k

/-- Keys of a dictionary. -/
def dictKeys (d : List (String × α)) : List String := d.map (·.1)

/-- Order-preserving insert-or-replace, as Python dict assignment. -/
def dictUpsert (d : List (String × α)) (k : String) (v : α) : List (String × α) :=
  if (dictKeys d).contains k then
    d.map (fun e => if e.1 = k then (k, v) else e)
  else d ++ [(k, v)]

/-! ## Config block parser (Worker._parse_config_file) -/

/-- One parsed config item, as built by Worker._parse_config_file.
The name field holds the entire block-header text after the opening
brace; there is no separate id field in the code. -/
structure ConfigItem where
  name : String
  stack_size : Option Int
  category : String
  source_file : String
  is_template : Bool
deriving DecidableEq, Repr

/-- The template names recognised by the Worker (TEMPLATE_NAMES). -/
def templateNames : List String := ["FoodTemplate", "OreTemplate", "ComponentsTemplate"]

/-- Scanner state of the config block parser: emitted items, the item
being accumulated, and the inside-a-block flag. -/
structure CfgScan where
  items : List ConfigItem
  current : Option ConfigItem
  insideBlock : Bool
deriving Repr

/-- One line of the scan loop of Worker._parse_config_file. -/
def cfgLineStep (filename : String) (st : CfgScan) (rawLine : String) : CfgScan :=
  let line := pyStrip rawLine
  if line = "" || pyStartsWith line "#" then st
  else if pyStartsWith line "\x7b" then
    let name := pyStrip (String.mk (line.data.drop 1))
    { st with
      current := some { name := name, stack_size := none, category := "Unknown",
                        source_file := filename,
                        is_template := templateNames.contains name },
      insideBlock := true }
  else if pyStartsWith line "\x7d" && st.insideBlock then
    { items := st.items ++
        (match st.current with
         | some it => if it.stack_size ≠ none then [it] else []
         | none => []),
      current := none, insideBlock := false }
  else if st.insideBlock then
    if pyStartsWith line "StackSize:" then
      match st.current with
      | some it =>
        match pyIntOfString (pyStrip (splitColonSecond line)) with
        | some n => { st with current := some { it with stack_size := some n } }
        | none => st
      | none => st
    else if pyStartsWith line "Category:" then
      match st.current with
      | some it =>
        { st with current := some { it with category := pyStrip (splitColonSecond line) } }
      | none => st
    else st
  else st

/-- Worker._parse_config_file: scan the downloaded file content line by
line and return the finalised items. -/
def parseConfigFileContent (filename : String) (content : String) : List ConfigItem :=
  ((pySplitlines content).foldl (cfgLineStep filename) ⟨[], none, false⟩).items

/-! ## Config save path (Worker._update_config_file, _upload_config_to_ftp) -/

/-- An edited item as passed to save_config_changes: the fields of the
item dict that _update_config_file reads. -/
structure CfgEdit where
  name : String
  stack_size : Int
  category : String
deriving DecidableEq, Repr

/-- The block text written for one item by Worker._update_config_file. -/
def itemBlockText (it : CfgEdit) : String :=
  "\x7b " ++ it.name ++ "\n" ++
  "  StackSize: " ++ toString it.stack_size ++ "\n" ++
  (if it.category ≠ "" then "  Category: " ++ it.category ++ "\n" else "") ++
  "\x7d\n\n"

/-- The full file content generated by Worker._update_config_file: a
header comment followed by one block per item.  It is built from the
item list alone; the previous remote content is not an input. -/
def renderConfigContent (items : List CfgEdit) : String :=
  "# Auto-generated config update\n" ++ String.join (items.map itemBlockText)

/-- A remote FTP directory: file name to file content, in listing order. -/
abbrev FtpDir := List (String × String)

/-- Model of ftp.nlst(): the list of file names. -/
def ftpNlst (d : FtpDir) : List String := d.map (·.1)

/-- Content of a remote file, none when absent. -/
def ftpGetFile (d : FtpDir) (n : String) : Option String := dictFind d n

/-- Model of ftp.delete(n): remove the named file. -/
def ftpDeleteFile (d : FtpDir) (n : String) : FtpDir :=
  match d with
  | [] => []
  | e :: rest => if e.1 = n then ftpDeleteFile rest n else e :: ftpDeleteFile rest n

/-- Model of ftp.storbinary with STOR n: overwrite in place or create. -/
def ftpStorFile (d : FtpDir) (n : String) (c : String) : FtpDir :=
  if (ftpNlst d).contains n then
    d.map (fun e => if e.1 = n then (n, c) else e)
  else d ++ [(n, c)]

/-- Model of ftp.rename(a, b): fails (none) when the source is absent,
like the error_perm raised by the server. -/
def ftpRenameFile (d : FtpDir) (a b : String) : Option FtpDir :=
  match ftpGetFile d a with
  | none => none
  | some c => some (ftpStorFile (ftpDeleteFile d a) b c)

/-- Worker._update_config_file for one file: generate the new content
from the item list, then run the backup steps against the directory
listing snapshot, then store the new content.  A failing rename aborts
the remaining steps (the exception is caught), leaving the directory as
it was at the point of failure. -/
def updateConfigFile (d : FtpDir) (filename : String) (items : List CfgEdit) : FtpDir :=
  let content := renderConfigContent items
  let names := ftpNlst d
  if ¬ names.contains (filename ++ ".org") then
    match ftpRenameFile d filename (filename ++ ".org") with
    | none => d
    | some d1 => ftpStorFile d1 filename content
  else
    let d1 := if names.contains (filename ++ ".bak")
              then ftpDeleteFile d (filename ++ ".bak") else d
    match ftpRenameFile d1 filename (filename ++ ".bak") with
    | none => d1
    | some d2 => ftpStorFile d2 filename content

/-! ## Session transport (Worker._read_until, Worker.send_command)

A command exchange is modelled by the sequence of outcomes of the
successive socket.recv(1) calls made while reading the response: a byte
arrives, the peer closes (empty chunk), socket.timeout is raised, or
another exception is raised.  The wall-clock bound of the read loop is
the end of the event list. -/

/-- Outcome of one socket.recv(1) call. -/
inductive RecvEvent where
  | byte (c : Char)
  | closed
  | tmo
  | err (m : String)
deriving DecidableEq, Repr

/-- Worker._read_until with the single-character delimiter: accumulate
bytes until the delimiter arrives, the peer closes, socket.timeout is
raised (caught: the loop breaks), or the time bound expires (end of the
event list).  Any other exception propagates to the caller (error). -/
def readUntilEvents (delim : Char) : List RecvEvent → List Char → Except String (List Char)
  | [], acc => .ok acc
  | .closed :: _, acc => .ok acc
  | .tmo :: _, acc => .ok acc
  | .err m :: _, _ => .error m
  | .byte c :: rest, acc =>
    if c = delim then .ok (acc ++ [c]) else readUntilEvents delim rest (acc ++ [c])

/-- Bytes kept by decode("ascii", "ignore"). -/
def asciiFilter (l : List Char) : List Char := l.filter (fun c => c.toNat < 128)

/-- Result of Worker.send_command: the returned text, the connected
flag afterwards, and the commands written to the socket. -/
structure CmdResult where
  response : String
  connected : Bool
  sent : List String
deriving DecidableEq, Repr

/-- Worker.send_command: refuse when not connected; otherwise write the
command and read until the prompt.  An exception during the exchange
clears the connected flag and yields an error string; otherwise the
text is decoded, stripped, and a single trailing prompt character is
removed. -/
def sendCommand (connected : Bool) (cmd : String) (evs : List RecvEvent) : CmdResult :=
  if ¬ connected then ⟨"Not connected", connected, []⟩
  else
    match readUntilEvents '>' evs [] with
    | .error m => ⟨"Error: " ++ m, false, [cmd]⟩
    | .ok raw =>
      let txt := pyStrip (String.mk (asciiFilter raw))
      ⟨if pyEndsWith txt ">" then pyStrip (String.mk (txt.data.dropLast)) else txt,
       connected, [cmd]⟩

/-- Whether the read loop hits an exception before any of its stopping
conditions (prompt byte, closed peer, timeout, time bound). -/
def errHitFirst (delim : Char) : List RecvEvent → Bool
  | [] => false
  | .closed :: _ => false
  | .tmo :: _ => false
  | .err _ :: _ => true
  | .byte c :: rest => if c = delim then false else errHitFirst delim rest

/-- Worker.send_global_message: an all-whitespace message is rejected
before any command is written; otherwise the say command with the
single-quoted text goes over the command channel. -/
def sendGlobalMessage (connected : Bool) (message : String) (evs : List RecvEvent) :
    Bool × List String :=
  if pyStrip message = "" then (connected, [])
  else
    let r := sendCommand connected ("say " ++ squote ++ message ++ squote) evs
    (r.connected, r.sent)

/-! ## Scheduled messages (Worker.check_scheduled_messages, _should_send_message)

Timestamps are integers counting seconds; a timedelta of m minutes is
60 * m seconds and of h hours is 3600 * h seconds. -/

/-- One scheduled message slot as loaded by load_scheduled_messages. -/
structure SchedMsg where
  enabled : Bool
  text : String
  schedule : String
deriving DecidableEq, Repr

/-- First integer token of a string: the leftmost maximal digit run, as
matched by a regex search for one-or-more digits. -/
def firstNatToken : List Char → Option Nat
  | [] => none
  | c :: rest =>
    if isDigitChar c then
      some (natOfDigits (c :: rest.takeWhile isDigitChar))
    else firstNatToken rest

/-- Worker._should_send_message: with no last-fired record, record now
and refuse to send; with a record, send when the elapsed time reaches
the interval parsed from the schedule text.  Returns the send decision
and the updated last-fired record. -/
def shouldSendMessage (lastSent : Option Int) (schedule : String) (now : Int) :
    Bool × Option Int :=
  match lastSent with
  | none => (false, some now)
  | some last =>
    if pyIn "minute" schedule then
      match firstNatToken schedule.data with
      | some m => (decide (now - last ≥ (m : Int) * 60), some last)
      | none => (false, some last)
    else if pyIn "hour" schedule then
      match firstNatToken schedule.data with
      | some h => (decide (now - last ≥ (h : Int) * 3600), some last)
      | none => (false, some last)
    else (false, some last)

/-- One slot of the loop in Worker.check_scheduled_messages: disabled
slots and slots whose stripped text is empty are skipped; otherwise the
send decision is taken and, on a send, the last-fired record is set to
now.  Returns whether the broadcast was issued and the new record. -/
def checkScheduledSlot (msg : SchedMsg) (lastSent : Option Int) (now : Int) :
    Bool × Option Int :=
  if ¬ msg.enabled then (false, lastSent)
  else if pyStrip msg.text = "" then (false, lastSent)
  else
    let r := shouldSendMessage lastSent msg.schedule now
    if r.1 then (true, some now) else (false, r.2)

/-! ## Entity parser (Worker._parse_entities) -/

/-- One parsed entity row. -/
structure EntityRecord where
  playfield : String
  entity_id : String
  etype : String
  faction : String
  name : String
deriving DecidableEq, Repr

/-- Replace every occurrence of a nonempty pattern in a list, left to
right and without overlap, as the Python str.replace method.  The fuel
argument only bounds the recursion; every step consumes at least one
element, so fuel equal to the input length is enough. -/
def replaceSubFuel [DecidableEq α] (t u : List α) : Nat → List α → List α
  | 0, l => l
  | _, [] => []
  | fuel + 1, c :: rest =>
    if t ≠ [] ∧ t.isPrefixOf (c :: rest) then
      u ++ replaceSubFuel t u fuel ((c :: rest).drop t.length)
    else
      c :: replaceSubFuel t u fuel rest

/-- Model of the Python str.replace method. -/
def pyReplace (s t u : String) : String :=
  String.mk (replaceSubFuel t.data u.data s.data.length s.data)

/-- The entity-line pattern of Worker._parse_entities, anchored at the
start of the line: a digit run, a colon, spaces, a word run, spaces, a
bracketed faction, spaces, and the rest of the line as the name. -/
def matchEntityLine (l : List Char) : Option (String × String × String × String) :=
  let ds := l.takeWhile isDigitChar
  if ds = [] then none
  else
    match l.drop ds.length with
    | ':' :: r1 =>
      let r2 := r1.dropWhile isRegexSpace
      let ws := r2.takeWhile isWordChar
      if ws = [] then none
      else
        match (r2.drop ws.length).dropWhile isRegexSpace with
        | '[' :: r4 =>
          let fac := r4.takeWhile (· ≠ ']')
          match r4.drop fac.length with
          | ']' :: r5 =>
            some (String.mk ds, String.mk ws, String.mk fac,
                  String.mk (r5.dropWhile isRegexSpace))
          | _ => none
        | _ => none
    | _ => none

/-- Whether a raw line is a playfield header of Worker._parse_entities:
its stripped text is nonempty and starts with the Playfield: prefix. -/
def isPfHeader (raw : String) : Bool :=
  pyStrip raw ≠ "" && pyStartsWith (pyStrip raw) "Playfield:"

/-- The playfield context set by a header line: the line with every
occurrence of the Playfield: prefix removed, then stripped. -/
def pfHeaderValue (raw : String) : String :=
  pyStrip (pyReplace (pyStrip raw) "Playfield:" "")

/-- The line scan of Worker._parse_entities, carrying the current
playfield context. -/
def entScan (ctx : String) : List String → List EntityRecord
  | [] => []
  | raw :: rest =>
    let line := pyStrip raw
    if line = "" then entScan ctx rest
    else if pyStartsWith line "Playfield:" then
      entScan (pyStrip (pyReplace line "Playfield:" "")) rest
    else
      match matchEntityLine line.data with
      | some (eid, ty, fac, nm) =>
        { playfield := ctx, entity_id := pyStrip eid, etype := pyStrip ty,
          faction := pyStrip fac, name := pyStrip nm } :: entScan ctx rest
      | none => entScan ctx rest

/-- Worker._parse_entities: scan the gents output with an initially
empty playfield context. -/
def parseEntities (gentsOutput : String) : List EntityRecord :=
  entScan "" (pySplitlines gentsOutput)

/-! ## Player parser (Worker.get_player_list_from_plys) -/

/-- One live player record as built by get_player_list_from_plys. -/
structure LivePlayer where
  id : String
  name : String
  faction : String
  role : String
  status : String
  ip : String
  playfield : String
deriving DecidableEq, Repr

/-- Model of the regex fragment backslash-s* followed by a captured
nonempty comma-free run followed by a comma.  The space run is greedy
but backs off so that the captured group keeps at least one character;
returns the group and the remainder after the comma. -/
def fieldUpToComma (l : List Char) : Option (List Char × List Char) :=
  let seg := l.takeWhile (· ≠ ',')
  match l.drop seg.length with
  | ',' :: rest =>
    if seg = [] then none
    else
      let sp := (seg.takeWhile isRegexSpace).length
      some (seg.drop (min sp (seg.length - 1)), rest)
  | _ => none

/-- The connected-players pattern pc_re, tried at the start of the
given suffix: an index digit run, a colon, the player id (optional
minus sign and digits), the name and playfield fields, and the ip and
port separated by a vertical bar. -/
def matchPCAt (l : List Char) :
    Option (String × String × String × String × String × String) :=
  let g1 := l.takeWhile isDigitChar
  if g1 = [] then none
  else
    match l.drop g1.length with
    | ':' :: r1 =>
      let r2 := r1.dropWhile isRegexSpace
      let sr := (match r2 with
        | '-' :: t => (['-'], t)
        | _ => (([] : List Char), r2))
      let ds := sr.2.takeWhile isDigitChar
      if ds = [] then none
      else
        match sr.2.drop ds.length with
        | ',' :: r4 =>
          match fieldUpToComma r4 with
          | some (f3, r6) =>
            match fieldUpToComma r6 with
            | some (f4, r8) =>
              let r9 := r8.dropWhile isRegexSpace
              let f5 := r9.takeWhile (fun c => isDigitChar c || c = '.')
              if f5 = [] then none
              else
                match r9.drop f5.length with
                | '|' :: r10 =>
                  let f6 := r10.takeWhile isDigitChar
                  if f6 = [] then none
                  else some (String.mk g1, String.mk (sr.1 ++ ds), String.mk f3,
                             String.mk f4, String.mk f5, String.mk f6)
                | _ => none
            | none => none
          | none => none
        | _ => none
    | _ => none

/-- Leftmost search for pc_re: try the pattern at every suffix.  The
pattern cannot match the empty suffix, so stopping at the empty list is
equivalent to the regex search. -/
def searchPC : List Char → Option (String × String × String × String × String × String)
  | [] => none
  | c :: rest =>
    match matchPCAt (c :: rest) with
    | some r => some r
    | none => searchPC rest

/-- All ways to split off a nonempty prefix followed by the stop text,
shortest prefix first: the candidate matches of a lazy dot-plus group
followed by a literal. -/
def lazySplits (stop : List Char) : List Char → List (List Char × List Char)
  | [] => []
  | c :: rest =>
    (if stop.isPrefixOf rest then [([c], rest.drop stop.length)] else []) ++
    (lazySplits stop rest).map (fun pr => (c :: pr.1, pr.2))

/-- The global-players pattern gp_re, tried at the start of the given
suffix: the id= token, a lazily captured name up to the fac=[ token,
the faction up to the closing bracket, the role word run, and an
optional online= digit run. -/
def matchGPAt (l : List Char) :
    Option (String × String × String × String × Option String) :=
  if "id=".data.isPrefixOf l then
    let r0 := l.drop 3
    let g1 := r0.takeWhile (fun c => c = '-' || isDigitChar c)
    if g1 = [] then none
    else
      let r1 := r0.drop g1.length
      if " name=".data.isPrefixOf r1 then
        let r2 := r1.drop 6
        (lazySplits " fac=[".data r2).findSome? (fun pr =>
          let r3 := pr.2
          let fac := r3.takeWhile (· ≠ ']')
          if fac = [] then none
          else
            match r3.drop fac.length with
            | ']' :: r4 =>
              if " role=".data.isPrefixOf r4 then
                let r5 := r4.drop 6
                let role := r5.takeWhile isWordChar
                if role = [] then none
                else
                  let r6 := r5.drop role.length
                  let onl :=
                    if " online=".data.isPrefixOf r6 then
                      let dg := (r6.drop 8).takeWhile isDigitChar
                      if dg = [] then none else some (String.mk dg)
                    else none
                  some (String.mk g1, String.mk pr.1, String.mk fac,
                        String.mk role, onl)
              else none
            | _ => none)
      else none
  else none

/-- Leftmost search for gp_re (also used for go_re, whose mandatory
part is identical and whose groups coincide with the first four). -/
def searchGP : List Char → Option (String × String × String × String × Option String)
  | [] => none
  | c :: rest =>
    match matchGPAt (c :: rest) with
    | some r => some r
    | none => searchGP rest

/-- State of the first scan of get_player_list_from_plys: the section
flag, the set of currently online ids, and the player dict. -/
structure PlysPass1 where
  inConn : Bool
  onlineIds : List String
  players : List (String × LivePlayer)

/-- One line of the Players-connected scan. -/
def plysPass1Step (st : PlysPass1) (ln : String) : PlysPass1 :=
  if pyIn "Players connected" ln then { st with inConn := true }
  else
    let inConn := if pyStrip ln = "" then false else st.inConn
    if inConn ∧ ¬ pyStartsWith (pyStrip ln) "-" then
      match searchPC (pyStrip ln).data with
      | some (_, pid, nm, pf, ip, _) =>
        { inConn := inConn,
          onlineIds := st.onlineIds ++ (if st.onlineIds.contains pid then [] else [pid]),
          players := dictUpsert st.players pid
            { id := pid, name := pyStrip nm, faction := "", role := "",
              status := "Online", ip := ip, playfield := pf } }
      | none => { st with inConn := inConn }
    else { st with inConn := inConn }

/-- One line of the Global-players-list scan: known ids get their
faction and role filled in, unknown ids are added as offline players. -/
def plysPass2Step (st : Bool × List (String × LivePlayer)) (ln : String) :
    Bool × List (String × LivePlayer) :=
  if pyIn "Global players list" ln then (true, st.2)
  else
    let inG := if pyStrip ln = "" then false else st.1
    if inG then
      match searchGP ln.data with
      | some (pid, nm, fac, role, _) =>
        (inG,
         match dictFind st.2 pid with
         | some p =>
           dictUpsert st.2 pid { p with faction := pyStrip fac, role := pyStrip role }
         | none =>
           dictUpsert st.2 pid
             { id := pid, name := pyStrip nm, faction := pyStrip fac,
               role := pyStrip role, status := "Offline", ip := "", playfield := "" })
      | none => (inG, st.2)
    else (inG, st.2)

/-- One line of the Global-online-players-list scan: only updates the
faction and role of ids already present. -/
def plysPass3Step (st : Bool × List (String × LivePlayer)) (ln : String) :
    Bool × List (String × LivePlayer) :=
  if pyIn "Global online players list" ln then (true, st.2)
  else
    let inO := if pyStrip ln = "" then false else st.1
    if inO then
      match searchGP ln.data with
      | some (pid, _, fac, role, _) =>
        (inO,
         match dictFind st.2 pid with
         | some p =>
           dictUpsert st.2 pid { p with faction := pyStrip fac, role := pyStrip role }
         | none => st.2)
      | none => (inO, st.2)
    else (inO, st.2)

/-- Lexicographic order on character lists by code point, the order
Python uses to compare strings. -/
def lexLeChars : List Char → List Char → Bool
  | [], _ => true
  | _ :: _, [] => false
  | a :: xs, b :: ys =>
    if a.toNat < b.toNat then true
    else if a.toNat = b.toNat then lexLeChars xs ys
    else false

/-- First component of the Python sort key: online players first. -/
def statusRankLive (p : LivePlayer) : Nat := if p.status = "Online" then 0 else 1

/-- The sort order of get_player_list_from_plys: by the key pair of
the online test and the lowercased name. -/
def livePlayerLe (p q : LivePlayer) : Bool :=
  decide (statusRankLive p < statusRankLive q) ||
  (decide (statusRankLive p = statusRankLive q) &&
   lexLeChars (lowerChars p.name.data) (lowerChars q.name.data))

/-- Worker.get_player_list_from_plys: three scans over the response
lines building the player dict, then the sorted list of its values. -/
def getPlayerListFromPlys (rsp : String) : List LivePlayer :=
  let lines := pySplitlines rsp
  let p1 := lines.foldl plysPass1Step ⟨false, [], []⟩
  let p2 := lines.foldl plysPass2Step (false, p1.players)
  let p3 := lines.foldl plysPass3Step (false, p2.2)
  (p3.2.map (·.2)).mergeSort livePlayerLe

/-! ## Player reconciliation (Worker._merge_live_data_with_known_players,
Worker._update_player_in_db)

Database timestamps become Option Nat (none models NULL); now is the
current timestamp of the cycle. -/

/-- A cached known player: the in-memory dict value. -/
structure CachePlayer where
  id : String
  name : String
  faction : String
  role : String
  status : String
  ip : String
  playfield : String
  lastSeenOnline : Option Nat
  lastSeenOffline : Option Nat
  firstSeen : Option Nat
  lastUpdated : Option Nat
deriving DecidableEq, Repr

/-- A row of the players table. -/
structure DbRow where
  name : String
  faction : String
  role : String
  lastSeenOnline : Option Nat
  lastSeenOffline : Option Nat
  firstSeen : Option Nat
  lastUpdated : Option Nat
deriving DecidableEq, Repr

/-- The players table, keyed by steam id. -/
abbrev Db := List (String × DbRow)

/-- The UPDATE branch of Worker._update_player_in_db applied to one
existing row: live fields overwritten, a seen timestamp touched only
when the status changed, firstSeen kept, lastUpdated set to now. -/
def dbRowUpdate (p : CachePlayer) (statusChanged : Bool) (now : Nat) (r : DbRow) : DbRow :=
  { name := p.name, faction := p.faction, role := p.role,
    lastSeenOnline :=
      if statusChanged ∧ p.status = "Online" then some now else r.lastSeenOnline,
    lastSeenOffline :=
      if statusChanged ∧ p.status ≠ "Online" then some now else r.lastSeenOffline,
    firstSeen := r.firstSeen,
    lastUpdated := some now }

/-- The INSERT branch of Worker._update_player_in_db: initial seen
timestamps derived from the current status. -/
def dbRowInsert (p : CachePlayer) (now : Nat) : DbRow :=
  { name := p.name, faction := p.faction, role := p.role,
    lastSeenOnline := if p.status = "Online" then some now else none,
    lastSeenOffline := if p.status = "Offline" then some now else none,
    firstSeen := some now, lastUpdated := some now }

/-- Worker._update_player_in_db: update the existing row (touching a
seen timestamp only when the status changed), or insert a new row with
initial timestamps derived from the current status. -/
def dbUpdatePlayer (db : Db) (p : CachePlayer) (statusChanged : Bool) (now : Nat) : Db :=
  match dictFind db p.id with
  | some _ =>
    db.map (fun e =>
      if e.1 = p.id then (e.1, dbRowUpdate p statusChanged now e.2) else e)
  | none => db ++ [(p.id, dbRowInsert p now)]

/-- State threaded through the merge: the merged player dict, the
players table, and the log of database writes (steam id together with
the status-changed flag of the write). -/
structure MergeSt where
  merged : List (String × CachePlayer)
  db : Db
  writes : List (String × Bool)
deriving Repr

/-- The live lookup dict built at the top of
_merge_live_data_with_known_players. -/
def liveDict (live : List LivePlayer) : List (String × LivePlayer) :=
  live.foldl (fun d p => dictUpsert d p.id p) []

/-- One iteration of the first loop of
_merge_live_data_with_known_players, processing one known player. -/
def mergeKnownStep (liveD : List (String × LivePlayer)) (now : Nat)
    (st : MergeSt) (entry : String × CachePlayer) : MergeSt :=
  let sid := entry.1
  let kp := entry.2
  match dictFind liveD sid with
  | some lp =>
    let mergedP : CachePlayer :=
      { id := sid, name := lp.name, faction := lp.faction, role := lp.role,
        status := lp.status, ip := lp.ip, playfield := lp.playfield,
        lastSeenOnline := kp.lastSeenOnline, lastSeenOffline := kp.lastSeenOffline,
        firstSeen := kp.firstSeen, lastUpdated := kp.lastUpdated }
    let statusChanged : Bool := decide (kp.status ≠ lp.status)
    let dataChanged : Bool :=
      decide (kp.name ≠ lp.name) || decide (kp.faction ≠ lp.faction) ||
      decide (kp.role ≠ lp.role)
    if statusChanged || dataChanged then
      { merged := dictUpsert st.merged sid mergedP,
        db := dbUpdatePlayer st.db mergedP statusChanged now,
        writes := st.writes ++ [(sid, statusChanged)] }
    else
      { st with merged := dictUpsert st.merged sid mergedP }
  | none =>
    if kp.status = "Online" then
      let kp' := { kp with status := "Offline", ip := "", playfield := "" }
      { merged := dictUpsert st.merged sid kp',
        db := dbUpdatePlayer st.db kp' true now,
        writes := st.writes ++ [(sid, true)] }
    else st

/-- One iteration of the second loop: a live id not yet in the merged
dict becomes a brand-new player with null historical timestamps. -/
def mergeNewStep (now : Nat) (st : MergeSt) (entry : String × LivePlayer) : MergeSt :=
  let sid := entry.1
  let lp := entry.2
  if (dictKeys st.merged).contains sid then st
  else
    let newP : CachePlayer :=
      { id := sid, name := lp.name, faction := lp.faction, role := lp.role,
        status := lp.status, ip := lp.ip, playfield := lp.playfield,
        lastSeenOnline := none, lastSeenOffline := none,
        firstSeen := none, lastUpdated := none }
    { merged := dictUpsert st.merged sid newP,
      db := dbUpdatePlayer st.db newP true now,
      writes := st.writes ++ [(sid, true)] }

/-- Worker._merge_live_data_with_known_players, state part: run both
loops starting from a copy of the known-players dict. -/
def mergeLiveData (known : List (String × CachePlayer)) (live : List LivePlayer)
    (db : Db) (now : Nat) : MergeSt :=
  let liveD := liveDict live
  let st1 := known.foldl (mergeKnownStep liveD now) ⟨known, db, []⟩
  liveD.foldl (mergeNewStep now) st1

/-- First component of the sort key for merged players. -/
def statusRankCache (p : CachePlayer) : Nat := if p.status = "Online" then 0 else 1

/-- The sort order of the merged list returned by
_merge_live_data_with_known_players: same key as the parser. -/
def cachePlayerLe (p q : CachePlayer) : Bool :=
  decide (statusRankCache p < statusRankCache q) ||
  (decide (statusRankCache p = statusRankCache q) &&
   lexLeChars (lowerChars p.name.data) (lowerChars q.name.data))

/-- The list returned by _merge_live_data_with_known_players: all
merged players sorted by status then lowercased name. -/
def mergeResultList (known : List (String × CachePlayer)) (live : List LivePlayer)
    (db : Db) (now : Nat) : List CachePlayer :=
  (((mergeLiveData known live db now).merged).map (·.2)).mergeSort cachePlayerLe

/-- The database writes of a merge cycle that concern one steam id. -/
def writesFor (sid : String) (ws : List (String × Bool)) : List (String × Bool) :=
  match ws with
  | [] => []
  | e :: rest => if e.1 = sid then e :: writesFor sid rest else writesFor sid rest

/-- Order on optional timestamps: a null timestamp is below everything,
two present timestamps compare numerically. -/
def tsLe : Option Nat → Option Nat → Prop
  | none, _ => True
  | some _, none => False
  | some a, some b => a ≤ b

/-- One write step either keeps a timestamp or sets it to now. -/
def tsEvolves (now : Nat) (a b : Option Nat) : Prop := b = a ∨ b = some now

/-- A stored timestamp does not lie in the future. -/
def tsBounded (now : Nat) : Option Nat → Prop
  | none => True
  | some a => a ≤ now

/-- Every stored seen timestamp of the table is at most now. -/
def dbBounded (now : Nat) (db : Db) : Prop :=
  ∀ e ∈ db, tsBounded now e.2.lastSeenOnline ∧ tsBounded now e.2.lastSeenOffline

/-- Reachability of one table from another within a cycle: every row
survives, its seen timestamps either kept or set to now. -/
def dbReach (now : Nat) (db0 db : Db) : Prop :=
  ∀ id r0, dictFind db0 id = some r0 →
    ∃ r, dictFind db id = some r ∧
      tsEvolves now r0.lastSeenOnline r.lastSeenOnline ∧
      tsEvolves now r0.lastSeenOffline r.lastSeenOffline

/-! ## Dictionary and directory lemmas -/

theorem dictFind_nil (n : String) : dictFind ([] : List (String × α)) n = none := rfl

theorem dictFind_cons (k : String) (v : α) (rest : List (String × α)) (n : String) :
    dictFind ((k, v) :: rest) n = if k = n then some v else dictFind rest n := rfl

theorem dictFind_append (d d2 : List (String × α)) (n : String) :
    dictFind (d ++ d2) n =
      match dictFind d n with
      | some v => some v
      | none => dictFind d2 n := by
  induction d with
  | nil => simp [dictFind]
  | cons e rest ih =>
    obtain ⟨k, w⟩ := e
    by_cases h : k = n <;> simp [dictFind_cons, h, ih]

theorem dictFind_map_update_self (d : List (String × α)) (n : String) (v : α) :
    dictFind (d.map fun e => if e.1 = n then (n, v) else e) n =
      (dictFind d n).map (fun _ => v) := by
  induction d with
  | nil => rfl
  | cons e rest ih =>
    obtain ⟨k, w⟩ := e
    by_cases h : k = n
    · subst h
      simp [dictFind_cons, ih]
    · simp [dictFind_cons, h, ih]

theorem dictFind_map_update_other (d : List (String × α)) (n m : String) (v : α)
    (h : m ≠ n) :
    dictFind (d.map fun e => if e.1 = n then (n, v) else e) m = dictFind d m := by
  induction d with
  | nil => rfl
  | cons e rest ih =>
    obtain ⟨k, w⟩ := e
    by_cases he : k = n
    · subst he
      have hnm : ¬ k = m := fun hx => h hx.symm
      simp [dictFind_cons, hnm, ih]
    · simp [dictFind_cons, he, ih]

theorem dictContains_iff_find (d : List (String × α)) (n : String) :
    (dictKeys d).contains n = true ↔ ∃ c, dictFind d n = some c := by
  induction d with
  | nil => simp [dictKeys, dictFind]
  | cons e rest ih =>
    obtain ⟨k, w⟩ := e
    by_cases h : k = n
    · subst h
      simp [dictKeys, dictFind_cons]
    · have hbe : (n == k) = false := by simp [Ne.symm h]
      rw [show dictKeys ((k, w) :: rest) = k :: dictKeys rest from rfl,
        List.contains_cons, hbe, Bool.false_or, dictFind_cons, if_neg h]
      exact ih

theorem dictFind_eq_none_of_not_contains (d : List (String × α)) (n : String)
    (h : ¬ (dictKeys d).contains n = true) : dictFind d n = none := by
  cases hd : dictFind d n with
  | none => rfl
  | some v => exact absurd ((dictContains_iff_find d n).mpr ⟨v, hd⟩) h

theorem ftpGet_stor_self (d : FtpDir) (n c : String) :
    ftpGetFile (ftpStorFile d n c) n = some c := by
  unfold ftpStorFile ftpGetFile
  by_cases h : (ftpNlst d).contains n = true
  · obtain ⟨c0, hc0⟩ := (dictContains_iff_find d n).mp h
    rw [if_pos h, dictFind_map_update_self, hc0]
    rfl
  · rw [if_neg h, dictFind_append, dictFind_eq_none_of_not_contains d n h]
    simp [dictFind_cons]

theorem ftpGet_stor_other (d : FtpDir) (n m c : String) (h : m ≠ n) :
    ftpGetFile (ftpStorFile d n c) m = ftpGetFile d m := by
  unfold ftpStorFile ftpGetFile
  by_cases hc : (ftpNlst d).contains n = true
  · rw [if_pos hc, dictFind_map_update_other _ _ _ _ h]
  · rw [if_neg hc, dictFind_append]
    cases hd : dictFind d m with
    | some v => simp
    | none =>
      rw [dictFind_cons, if_neg (Ne.symm h)]
      rfl

theorem ftpGet_del_other (d : FtpDir) (n m : String) (h : m ≠ n) :
    ftpGetFile (ftpDeleteFile d n) m = ftpGetFile d m := by
  induction d with
  | nil => rfl
  | cons e rest ih =>
    obtain ⟨k, w⟩ := e
    by_cases hkn : k = n
    · subst hkn
      have hkm : ¬ k = m := fun hx => h hx.symm
      simp [ftpDeleteFile, ftpGetFile, dictFind_cons, hkm] at ih ⊢
      exact ih
    · simp only [ftpDeleteFile, if_neg hkn]
      simp [ftpGetFile, dictFind_cons] at ih ⊢
      by_cases hk : k = m
      · simp [hk]
      · simp [hk]
        exact ih

theorem ftpRename_eq (d : FtpDir) (a b c : String) (h : ftpGetFile d a = some c) :
    ftpRenameFile d a b = some (ftpStorFile (ftpDeleteFile d a) b c) := by
  simp [ftpRenameFile, h]

theorem string_ne_append (s t : String) (h : t ≠ "") : s ≠ s ++ t := by
  intro he
  apply h
  have hd := congrArg String.data he
  rw [String.data_append] at hd
  have h2 : s.data ++ [] = s.data ++ t.data := by simpa using hd
  have ht : t.data = [] := (List.append_cancel_left h2).symm
  cases t with
  | mk data =>
    have hdd : data = [] := ht
    subst hdd
    rfl

theorem string_append_right_inj (s t u : String) (h : s ++ t = s ++ u) : t = u := by
  have hd := congrArg String.data h
  rw [String.data_append, String.data_append] at hd
  have h2 := List.append_cancel_left hd
  cases t with
  | mk td =>
    cases u with
    | mk ud =>
      have heq : td = ud := h2
      subst heq
      rfl

theorem updateConfigFile_fresh_eq (d : FtpDir) (file : String) (items : List CfgEdit)
    (orig : String) (h : ftpGetFile d file = some orig)
    (horg : ¬ (ftpNlst d).contains (file ++ ".org") = true) :
    updateConfigFile d file items =
      ftpStorFile (ftpStorFile (ftpDeleteFile d file) (file ++ ".org") orig) file
        (renderConfigContent items) := by
  simp only [updateConfigFile]
  rw [if_pos horg, ftpRename_eq d file (file ++ ".org") orig h]

theorem updateConfigFile_org_eq (d : FtpDir) (file : String) (items : List CfgEdit)
    (orig : String) (h : ftpGetFile d file = some orig)
    (horg : (ftpNlst d).contains (file ++ ".org") = true) :
    updateConfigFile d file items =
      ftpStorFile
        (ftpStorFile
          (ftpDeleteFile
            (if (ftpNlst d).contains (file ++ ".bak") = true
             then ftpDeleteFile d (file ++ ".bak") else d) file)
          (file ++ ".bak") orig)
        file (renderConfigContent items) := by
  have hfb : file ≠ file ++ ".bak" := string_ne_append _ _ (by decide)
  have h1 : ftpGetFile (if (ftpNlst d).contains (file ++ ".bak") = true
      then ftpDeleteFile d (file ++ ".bak") else d) file = some orig := by
    by_cases hbak : (ftpNlst d).contains (file ++ ".bak") = true
    · rw [if_pos hbak, ftpGet_del_other _ _ _ hfb]
      exact h
    · rw [if_neg hbak]
      exact h
  simp only [updateConfigFile]
  rw [if_neg (not_not_intro horg), ftpRename_eq _ _ _ _ h1]

/-! ## Claim theorems: config block parser (C8) -/

/-- Claim C8 counterexample: on the block of the claim, the parser
emits one item whose name field is the whole header text after the
opening brace, not the token IronIngot; no id field exists at all, so
the parsed names differ from what the claim asserts. -/
theorem c8_counterexample :
    (parseConfigFileContent "Config_Example.ecf"
        "\x7b Item Id: 42, Name: IronIngot\nStackSize: 500\nCategory: Material\n\x7d").map
        ConfigItem.name ≠ ["IronIngot"] := by decide

/-- Claim C8 (amended): the block parses to exactly one ConfigItem
whose name is the entire header text after the opening brace, with
stack size 500 and category Material; the same block with the
StackSize line removed parses to zero items. -/
theorem c8_amended :
    parseConfigFileContent "Config_Example.ecf"
        "\x7b Item Id: 42, Name: IronIngot\nStackSize: 500\nCategory: Material\n\x7d" =
      [{ name := "Item Id: 42, Name: IronIngot", stack_size := some 500,
         category := "Material", source_file := "Config_Example.ecf",
         is_template := false }] ∧
    parseConfigFileContent "Config_Example.ecf"
        "\x7b Item Id: 42, Name: IronIngot\nCategory: Material\n\x7d" = [] := by
  exact ⟨by decide, by decide⟩

/-! ## Claim theorems: config save path (C1, C2) -/

/-- Claim C1 counterexample: saving an IronIngot edit over a file whose
content is the IronIngot block uploads a file whose very first line is
the generated header comment, which differs from the first line of the
previous remote content even though that line is not a StackSize line;
the rewrite is not line-identical outside StackSize tokens. -/
theorem c1_counterexample :
    ftpGetFile
        (updateConfigFile [("ItemsConfig.ecf",
            "\x7b IronIngot\n  StackSize: 500\n  Category: Material\n\x7d")]
          "ItemsConfig.ecf"
          [{ name := "IronIngot", stack_size := 750, category := "Material" }])
        "ItemsConfig.ecf" =
      some (renderConfigContent
        [{ name := "IronIngot", stack_size := 750, category := "Material" }]) ∧
    (pySplitlines (renderConfigContent
        [{ name := "IronIngot", stack_size := 750, category := "Material" }])).head? =
      some "# Auto-generated config update" ∧
    (pySplitlines
        "\x7b IronIngot\n  StackSize: 500\n  Category: Material\n\x7d").head? =
      some "\x7b IronIngot" ∧
    ("# Auto-generated config update" : String) ≠ "\x7b IronIngot" ∧
    pyStartsWith (pyStrip "\x7b IronIngot") "StackSize:" = false := by
  refine ⟨by decide, by decide, by decide, by decide, by decide⟩

theorem updFresh_spec (d : FtpDir) (file : String) (items : List CfgEdit) (orig : String)
    (h : ftpGetFile d file = some orig)
    (horg : ¬ (ftpNlst d).contains (file ++ ".org")) :
    ftpGetFile (updateConfigFile d file items) file =
      some (renderConfigContent items) ∧
    ftpGetFile (updateConfigFile d file items) (file ++ ".org") = some orig ∧
    (∀ g, g ≠ file → g ≠ file ++ ".org" →
      ftpGetFile (updateConfigFile d file items) g = ftpGetFile d g) := by
  have hfo : file ≠ file ++ ".org" := string_ne_append _ _ (by decide)
  rw [updateConfigFile_fresh_eq d file items orig h horg]
  refine ⟨ftpGet_stor_self _ _ _, ?_, ?_⟩
  · rw [ftpGet_stor_other _ _ _ _ (Ne.symm hfo)]
    exact ftpGet_stor_self _ _ _
  · intro g hg1 hg2
    rw [ftpGet_stor_other _ _ _ _ hg1, ftpGet_stor_other _ _ _ _ hg2]
    exact ftpGet_del_other _ _ _ hg1

theorem updOrg_spec (d : FtpDir) (file : String) (items : List CfgEdit) (orig : String)
    (h : ftpGetFile d file = some orig)
    (horg : (ftpNlst d).contains (file ++ ".org") = true) :
    ftpGetFile (updateConfigFile d file items) file =
      some (renderConfigContent items) ∧
    ftpGetFile (updateConfigFile d file items) (file ++ ".bak") = some orig := by
  have hfb : file ≠ file ++ ".bak" := string_ne_append _ _ (by decide)
  rw [updateConfigFile_org_eq d file items orig h horg]
  refine ⟨ftpGet_stor_self _ _ _, ?_⟩
  rw [ftpGet_stor_other _ _ _ _ (Ne.symm hfb)]
  exact ftpGet_stor_self _ _ _

/-- Claim C1 (amended): the config save path regenerates the remote
file wholesale from the edited items alone: after the update the live
file holds renderConfigContent of the items, a value independent of the
previously downloaded content, and the previous remote content survives
only as the backup copy (as the .org file on a first edit, as the .bak
file when a .org already exists). -/
theorem c1_amended (d : FtpDir) (file : String) (items : List CfgEdit) (orig : String)
    (h : ftpGetFile d file = some orig) :
    ftpGetFile (updateConfigFile d file items) file =
      some (renderConfigContent items) ∧
    (¬ (ftpNlst d).contains (file ++ ".org") →
      ftpGetFile (updateConfigFile d file items) (file ++ ".org") = some orig) ∧
    ((ftpNlst d).contains (file ++ ".org") →
      ftpGetFile (updateConfigFile d file items) (file ++ ".bak") = some orig) := by
  by_cases horg : (ftpNlst d).contains (file ++ ".org")
  · exact ⟨(updOrg_spec d file items orig h horg).1,
           fun hn => absurd horg hn,
           fun _ => (updOrg_spec d file items orig h horg).2⟩
  · exact ⟨(updFresh_spec d file items orig h horg).1,
           fun _ => (updFresh_spec d file items orig h horg).2.1,
           fun hy => absurd hy horg⟩

/-- Claim C1 amended, witness: a concrete directory holding one file. -/
theorem c1_amended_witness :
    ftpGetFile
        (updateConfigFile [("ItemsConfig.ecf", "old content")] "ItemsConfig.ecf"
          [{ name := "IronIngot", stack_size := 750, category := "Material" }])
        "ItemsConfig.ecf" =
      some (renderConfigContent
        [{ name := "IronIngot", stack_size := 750, category := "Material" }]) :=
  (c1_amended [("ItemsConfig.ecf", "old content")] "ItemsConfig.ecf"
    [{ name := "IronIngot", stack_size := 750, category := "Material" }]
    "old content" (by decide)).1

/-- Claim C2 counterexample: starting from a directory holding only the
config file (no .org), the update leaves no .bak file at all, so the
three files the claim promises do not exist. -/
theorem c2_counterexample :
    ftpGetFile
        (updateConfigFile [("ItemsConfig.ecf", "original text")] "ItemsConfig.ecf"
          [{ name := "IronIngot", stack_size := 750, category := "Material" }])
        "ItemsConfig.ecf.bak" = none ∧
    (ftpNlst
        (updateConfigFile [("ItemsConfig.ecf", "original text")] "ItemsConfig.ecf"
          [{ name := "IronIngot", stack_size := 750, category := "Material" }])).contains
        "ItemsConfig.ecf.bak" = false := by
  exact ⟨by decide, by decide⟩

/-- Claim C2 (amended): for a fresh remote file (no .org and no .bak
present), a successful update leaves exactly two remote files for it:
the .org file holding the original content and the live file holding
the regenerated content; no .bak is created, and every other remote
file is untouched. -/
theorem c2_amended (d : FtpDir) (file : String) (items : List CfgEdit) (orig : String)
    (h : ftpGetFile d file = some orig)
    (horg : ¬ (ftpNlst d).contains (file ++ ".org"))
    (hbak : ftpGetFile d (file ++ ".bak") = none) :
    ftpGetFile (updateConfigFile d file items) (file ++ ".org") = some orig ∧
    ftpGetFile (updateConfigFile d file items) file =
      some (renderConfigContent items) ∧
    ftpGetFile (updateConfigFile d file items) (file ++ ".bak") = none ∧
    (∀ g, g ≠ file → g ≠ file ++ ".org" →
      ftpGetFile (updateConfigFile d file items) g = ftpGetFile d g) := by
  have hfb : file ≠ file ++ ".bak" := string_ne_append _ _ (by decide)
  have hob : file ++ ".org" ≠ file ++ ".bak" := by
    intro he; exact absurd (string_append_right_inj _ _ _ he) (by decide)
  obtain ⟨hlive, horgc, hframe⟩ := updFresh_spec d file items orig h horg
  refine ⟨horgc, hlive, ?_, hframe⟩
  rw [hframe _ (Ne.symm hfb) (Ne.symm hob)]
  exact hbak

/-- Claim C2 amended, witness: a concrete fresh directory. -/
theorem c2_amended_witness :
    ftpGetFile
        (updateConfigFile [("ItemsConfig.ecf", "original text")] "ItemsConfig.ecf"
          [{ name := "IronIngot", stack_size := 750, category := "Material" }])
        "ItemsConfig.ecf.org" = some "original text" :=
  (c2_amended [("ItemsConfig.ecf", "original text")] "ItemsConfig.ecf"
    [{ name := "IronIngot", stack_size := 750, category := "Material" }]
    "original text" (by decide) (by decide) (by decide)).1

/-! ## Claim theorems: session transport (C3) -/

theorem readUntil_error_iff (evs : List RecvEvent) (acc : List Char) :
    (∃ m, readUntilEvents '>' evs acc = .error m) ↔ errHitFirst '>' evs = true := by
  induction evs generalizing acc with
  | nil => simp [readUntilEvents, errHitFirst]
  | cons e rest ih =>
    cases e with
    | closed => simp [readUntilEvents, errHitFirst]
    | tmo => simp [readUntilEvents, errHitFirst]
    | err m => simp [readUntilEvents, errHitFirst]
    | byte c =>
      by_cases hc : c = '>'
      · simp [readUntilEvents, errHitFirst, hc]
      · simp [readUntilEvents, errHitFirst, hc, ih]

theorem readUntil_ok_of_not_err (evs : List RecvEvent) (acc : List Char)
    (h : errHitFirst '>' evs = false) :
    ∃ raw, readUntilEvents '>' evs acc = .ok raw := by
  induction evs generalizing acc with
  | nil => exact ⟨acc, rfl⟩
  | cons e rest ih =>
    cases e with
    | closed => exact ⟨acc, rfl⟩
    | tmo => exact ⟨acc, rfl⟩
    | err m => simp [errHitFirst] at h
    | byte c =>
      by_cases hc : c = '>'
      · exact ⟨acc ++ [c], by simp [readUntilEvents, hc]⟩
      · simp only [errHitFirst, if_neg hc] at h
        obtain ⟨raw, hraw⟩ := ih (acc ++ [c]) h
        exact ⟨raw, by simp [readUntilEvents, hc, hraw]⟩

/-- Claim C3 counterexample: a read in which two bytes arrive and then
a socket timeout is raised returns the partial text assembled from
those bytes as the response, with the session still connected: the
claimed transition to Disconnected and the typed failure do not
happen on a read timeout. -/
theorem c3_counterexample :
    sendCommand true "plys" [.byte 'a', .byte 'b', .tmo] =
      { response := "ab", connected := true, sent := ["plys"] } := by decide

/-- Claim C3 (amended): an I/O exception during execute clears the
connected flag and surfaces an error result; a read timeout, a closed
peer, or expiry of the read bound does not: the session stays
connected and the text accumulated up to that point, possibly partial,
is returned as the response. -/
theorem c3_amended (cmd : String) (evs : List RecvEvent) :
    (errHitFirst '>' evs = true →
      ∃ m, sendCommand true cmd evs =
        { response := "Error: " ++ m, connected := false, sent := [cmd] }) ∧
    (errHitFirst '>' evs = false →
      ∃ raw, readUntilEvents '>' evs [] = .ok raw ∧
        sendCommand true cmd evs =
          { response :=
              if pyEndsWith (pyStrip (String.mk (asciiFilter raw))) ">"
              then pyStrip (String.mk (pyStrip (String.mk (asciiFilter raw))).data.dropLast)
              else pyStrip (String.mk (asciiFilter raw)),
            connected := true, sent := [cmd] }) := by
  constructor
  · intro he
    obtain ⟨m, hm⟩ := (readUntil_error_iff evs []).mpr he
    exact ⟨m, by simp [sendCommand, hm]⟩
  · intro he
    obtain ⟨raw, hraw⟩ := readUntil_ok_of_not_err evs [] he
    exact ⟨raw, hraw, by simp [sendCommand, hraw]⟩

/-- Claim C3 amended, witness: a concrete exchange hitting an I/O
exception after one byte. -/
theorem c3_amended_witness :
    ∃ m, sendCommand true "plys" [.byte 'a', .err "reset"] =
      { response := "Error: " ++ m, connected := false, sent := ["plys"] } :=
  (c3_amended "plys" [.byte 'a', .err "reset"]).1 (by decide)

/-! ## Claim theorems: scheduler (C7) -/

/-- Claim C7: an enabled slot with nonempty text and the Every 5
minutes interval, with no last-fired record at time T, records T
without sending on that tick; on later ticks it does not send while
less than 300 seconds have elapsed since the record, and it sends on
any tick at least 300 seconds after the record, the record then moving
to the sending tick so the next interval is measured from it. -/
theorem c7_interval_schedule (text : String) (ht : pyStrip text ≠ "") (T t : Int) :
    checkScheduledSlot ⟨true, text, "Every 5 minutes"⟩ none T = (false, some T) ∧
    (t - T < 300 →
      checkScheduledSlot ⟨true, text, "Every 5 minutes"⟩ (some T) t = (false, some T)) ∧
    (t - T ≥ 300 →
      checkScheduledSlot ⟨true, text, "Every 5 minutes"⟩ (some T) t = (true, some t)) := by
  have hmin : pyIn "minute" "Every 5 minutes" = true := by decide
  have htk : firstNatToken ("Every 5 minutes" : String).data = some 5 := by decide
  refine ⟨?_, ?_, ?_⟩
  · simp [checkScheduledSlot, shouldSendMessage, ht]
  · intro hlt
    have hn : ¬ (t - T ≥ (5 : Int) * 60) := by omega
    simp [checkScheduledSlot, shouldSendMessage, ht, hmin, htk, hn]
    omega
  · intro hge
    have hy : (t - T ≥ (5 : Int) * 60) := by omega
    simp [checkScheduledSlot, shouldSendMessage, ht, hmin, htk, hy]
    omega

/-- Claim C7, witness: a concrete slot fired exactly at the interval
boundary. -/
theorem c7_witness :
    checkScheduledSlot ⟨true, "hello", "Every 5 minutes"⟩ (some 0) 300 = (true, some 300) :=
  (c7_interval_schedule "hello" (by decide) 0 300).2.2 (by norm_num)

/-! ## Claim theorems: entity parser (C9) -/

/-- Claim C9 counterexample: a bare header line Akua [Moon] is not
recognised by the parser (headers must start with the Playfield:
prefix), so the following entity line is parsed with the empty
playfield context, not with Akua. -/
theorem c9_counterexample :
    parseEntities "Akua [Moon]\n  123: BA [Fun] Base Alpha" =
      [{ playfield := "", entity_id := "123", etype := "BA",
         faction := "Fun", name := "Base Alpha" }] ∧
    ("" : String) ≠ "Akua" := by
  exact ⟨by decide, by decide⟩

/-- Claim C9 (amended): the playfield context comes only from lines
whose stripped text starts with Playfield:; every entity parsed from a
run of lines containing no such header keeps the incoming context, a
header line switches the context to the header value (the line with
the Playfield: prefix removed and stripped, bracketed suffix included,
with no truncation at the first bracket), and on the concrete input
with a Playfield: Akua [Moon] header the entity gets playfield
Akua [Moon]. -/
theorem c9_amended :
    (∀ ctx raws, (∀ r ∈ raws, isPfHeader r = false) →
      ∀ e ∈ entScan ctx raws, e.playfield = ctx) ∧
    (∀ ctx raw raws, isPfHeader raw = true →
      entScan ctx (raw :: raws) = entScan (pfHeaderValue raw) raws) ∧
    parseEntities "Playfield: Akua [Moon]\n  123: BA [Fun] Base Alpha" =
      [{ playfield := "Akua [Moon]", entity_id := "123", etype := "BA",
         faction := "Fun", name := "Base Alpha" }] := by
  refine ⟨?_, ?_, by decide⟩
  · intro ctx raws
    induction raws generalizing ctx with
    | nil =>
      intro _ e he
      simp [entScan] at he
    | cons raw rest ih =>
      intro hh e he
      have hhd : isPfHeader raw = false := hh raw (by simp)
      have hrest : ∀ r ∈ rest, isPfHeader r = false := fun r hr => hh r (by simp [hr])
      unfold entScan at he
      by_cases h1 : pyStrip raw = ""
      · rw [if_pos h1] at he
        exact ih ctx hrest e he
      · rw [if_neg h1] at he
        have h2 : pyStartsWith (pyStrip raw) "Playfield:" = false := by
          unfold isPfHeader at hhd
          simpa [h1] using hhd
        rw [if_neg (by simp [h2])] at he
        cases hm : matchEntityLine (pyStrip raw).data with
        | none =>
          simp only [hm] at he
          exact ih ctx hrest e he
        | some q =>
          obtain ⟨eid, ty, fac, nm⟩ := q
          simp only [hm] at he
          rcases List.mem_cons.mp he with he1 | he2
          · subst he1
            rfl
          · exact ih ctx hrest e he2
  · intro ctx raw raws hh
    have hsplit : pyStrip raw ≠ "" ∧ pyStartsWith (pyStrip raw) "Playfield:" = true := by
      unfold isPfHeader at hh
      simpa using hh
    conv_lhs => unfold entScan
    rw [if_neg hsplit.1, if_pos hsplit.2]
    rfl

/-- Claim C9 amended, witness: the no-header part applied to one
concrete entity line under the context Akua. -/
theorem c9_amended_witness :
    ({ playfield := "Akua", entity_id := "123", etype := "BA", faction := "Fun",
       name := "Base Alpha" } : EntityRecord).playfield = "Akua" :=
  c9_amended.1 "Akua" ["  123: BA [Fun] Base Alpha"] (by decide) _ (by decide)

/-! ## Claim theorems: global broadcast guard (C10) -/

theorem stripChars_eq_nil_iff (l : List Char) :
    stripChars l = [] ↔ ∀ c ∈ l, isPySpace c = true := by
  unfold stripChars
  constructor
  · intro h c hc
    have h1 : (l.dropWhile isPySpace).reverse.dropWhile isPySpace = [] := by
      have := congrArg List.reverse h
      simpa using this
    have h2 : ∀ x ∈ (l.dropWhile isPySpace).reverse, isPySpace x = true :=
      List.dropWhile_eq_nil_iff.mp h1
    have h3 : ∀ x ∈ l.dropWhile isPySpace, isPySpace x = true := by
      intro x hx
      exact h2 x (List.mem_reverse.mpr hx)
    rcases (List.takeWhile_append_dropWhile (p := isPySpace) (l := l)) ▸ hc with hc'
    rcases List.mem_append.mp hc' with hk | hd
    · exact List.mem_takeWhile_imp hk
    · exact h3 c hd
  · intro h
    have h1 : l.dropWhile isPySpace = [] := List.dropWhile_eq_nil_iff.mpr h
    simp [h1]

theorem pyStrip_eq_empty_iff (s : String) :
    pyStrip s = "" ↔ ∀ c ∈ s.data, isPySpace c = true := by
  unfold pyStrip
  constructor
  · intro h
    have : stripChars s.data = [] := by
      have := congrArg String.data h
      simpa using this
    exact (stripChars_eq_nil_iff _).mp this
  · intro h
    rw [(stripChars_eq_nil_iff _).mpr h]

/-- Claim C10: a message all of whose characters are whitespace (the
empty message included) makes send_global_message return without
writing any command, leaving the connected flag as it was; a broadcast
command is written only when the message has at least one
non-whitespace character. -/
theorem c10_whitespace_guard (connected : Bool) (message : String) (evs : List RecvEvent) :
    ((∀ c ∈ message.data, isPySpace c = true) →
      sendGlobalMessage connected message evs = (connected, [])) ∧
    ((sendGlobalMessage connected message evs).2 ≠ [] →
      ∃ c ∈ message.data, isPySpace c = false) := by
  constructor
  · intro hall
    have h0 : pyStrip message = "" := (pyStrip_eq_empty_iff message).mpr hall
    simp [sendGlobalMessage, h0]
  · intro hs
    by_contra hno
    push_neg at hno
    have hall : ∀ c ∈ message.data, isPySpace c = true := by
      intro c hc
      cases hh : isPySpace c
      · exact absurd hh (hno c hc)
      · rfl
    have h0 : pyStrip message = "" := (pyStrip_eq_empty_iff message).mpr hall
    simp [sendGlobalMessage, h0] at hs

/-- Claim C10, witness: a concrete whitespace-only message. -/
theorem c10_witness :
    sendGlobalMessage true "  " [] = (true, []) :=
  (c10_whitespace_guard true "  " []).1 (by decide)

/-! ## Claim theorems: player parser ordering and uniqueness (C6) -/

theorem lexLeChars_of_lt {x y : Char} (xs ys : List Char) (h : x.toNat < y.toNat) :
    lexLeChars (x :: xs) (y :: ys) = true := by
  simp only [lexLeChars]
  rw [if_pos h]

theorem lexLeChars_of_eq {x y : Char} {xs ys : List Char} (h : x.toNat = y.toNat)
    (ht : lexLeChars xs ys = true) : lexLeChars (x :: xs) (y :: ys) = true := by
  simp only [lexLeChars]
  rw [if_neg (by omega), if_pos h]
  exact ht

theorem lexLeChars_cases {x y : Char} {xs ys : List Char}
    (h : lexLeChars (x :: xs) (y :: ys) = true) :
    x.toNat < y.toNat ∨ (x.toNat = y.toNat ∧ lexLeChars xs ys = true) := by
  simp only [lexLeChars] at h
  by_cases h1 : x.toNat < y.toNat
  · exact Or.inl h1
  · rw [if_neg h1] at h
    by_cases h2 : x.toNat = y.toNat
    · rw [if_pos h2] at h
      exact Or.inr ⟨h2, h⟩
    · rw [if_neg h2] at h
      exact absurd h (by simp)

theorem lexLeChars_trans : ∀ (a b c : List Char),
    lexLeChars a b = true → lexLeChars b c = true → lexLeChars a c = true
  | [], _, _, _, _ => rfl
  | x :: xs, [], _, h1, _ => by simp [lexLeChars] at h1
  | x :: xs, y :: ys, [], _, h2 => by simp [lexLeChars] at h2
  | x :: xs, y :: ys, z :: zs, h1, h2 => by
    rcases lexLeChars_cases h1 with hxy | ⟨hxy, hxs⟩
    · rcases lexLeChars_cases h2 with hyz | ⟨hyz, _⟩
      · exact lexLeChars_of_lt _ _ (by omega)
      · exact lexLeChars_of_lt _ _ (by omega)
    · rcases lexLeChars_cases h2 with hyz | ⟨hyz, hys⟩
      · exact lexLeChars_of_lt _ _ (by omega)
      · exact lexLeChars_of_eq (by omega) (lexLeChars_trans xs ys zs hxs hys)

theorem lexLeChars_total : ∀ (a b : List Char),
    lexLeChars a b = true ∨ lexLeChars b a = true
  | [], _ => Or.inl rfl
  | _ :: _, [] => Or.inr rfl
  | x :: xs, y :: ys => by
    rcases Nat.lt_trichotomy x.toNat y.toNat with h | h | h
    · exact Or.inl (lexLeChars_of_lt _ _ h)
    · rcases lexLeChars_total xs ys with ht | ht
      · exact Or.inl (lexLeChars_of_eq h ht)
      · exact Or.inr (lexLeChars_of_eq h.symm ht)
    · exact Or.inr (lexLeChars_of_lt _ _ h)

theorem livePlayerLe_trans (a b c : LivePlayer)
    (h1 : livePlayerLe a b = true) (h2 : livePlayerLe b c = true) :
    livePlayerLe a c = true := by
  simp only [livePlayerLe, Bool.or_eq_true, Bool.and_eq_true, decide_eq_true_eq]
    at h1 h2 ⊢
  rcases h1 with h1 | ⟨h1e, h1l⟩ <;> rcases h2 with h2 | ⟨h2e, h2l⟩
  · exact Or.inl (by omega)
  · exact Or.inl (by omega)
  · exact Or.inl (by omega)
  · exact Or.inr ⟨by omega, lexLeChars_trans _ _ _ h1l h2l⟩

theorem livePlayerLe_total (a b : LivePlayer) :
    (livePlayerLe a b || livePlayerLe b a) = true := by
  simp only [livePlayerLe, Bool.or_eq_true, Bool.and_eq_true, decide_eq_true_eq]
  rcases Nat.lt_trichotomy (statusRankLive a) (statusRankLive b) with h | h | h
  · exact Or.inl (Or.inl h)
  · rcases lexLeChars_total (lowerChars a.name.data) (lowerChars b.name.data) with ht | ht
    · exact Or.inl (Or.inr ⟨h, ht⟩)
    · exact Or.inr (Or.inr ⟨h.symm, ht⟩)
  · exact Or.inr (Or.inl h)

theorem cachePlayerLe_trans (a b c : CachePlayer)
    (h1 : cachePlayerLe a b = true) (h2 : cachePlayerLe b c = true) :
    cachePlayerLe a c = true := by
  simp only [cachePlayerLe, Bool.or_eq_true, Bool.and_eq_true, decide_eq_true_eq]
    at h1 h2 ⊢
  rcases h1 with h1 | ⟨h1e, h1l⟩ <;> rcases h2 with h2 | ⟨h2e, h2l⟩
  · exact Or.inl (by omega)
  · exact Or.inl (by omega)
  · exact Or.inl (by omega)
  · exact Or.inr ⟨by omega, lexLeChars_trans _ _ _ h1l h2l⟩

theorem cachePlayerLe_total (a b : CachePlayer) :
    (cachePlayerLe a b || cachePlayerLe b a) = true := by
  simp only [cachePlayerLe, Bool.or_eq_true, Bool.and_eq_true, decide_eq_true_eq]
  rcases Nat.lt_trichotomy (statusRankCache a) (statusRankCache b) with h | h | h
  · exact Or.inl (Or.inl h)
  · rcases lexLeChars_total (lowerChars a.name.data) (lowerChars b.name.data) with ht | ht
    · exact Or.inl (Or.inr ⟨h, ht⟩)
    · exact Or.inr (Or.inr ⟨h.symm, ht⟩)
  · exact Or.inr (Or.inl h)

theorem dictFind_mem (d : List (String × α)) (k : String) (v : α)
    (h : dictFind d k = some v) : (k, v) ∈ d := by
  induction d with
  | nil => simp [dictFind] at h
  | cons e rest ih =>
    obtain ⟨k', w⟩ := e
    rw [dictFind_cons] at h
    by_cases hk : k' = k
    · rw [if_pos hk] at h
      subst hk
      injection h with h
      subst h
      exact List.mem_cons_self _ _
    · rw [if_neg hk] at h
      exact List.mem_cons_of_mem _ (ih h)

theorem dictUpsert_keys_nodup (d : List (String × α)) (k : String) (v : α)
    (h : (dictKeys d).Nodup) : (dictKeys (dictUpsert d k v)).Nodup := by
  unfold dictUpsert
  by_cases hc : (dictKeys d).contains k = true
  · rw [if_pos hc]
    have heq : dictKeys (d.map fun e => if e.1 = k then (k, v) else e) = dictKeys d := by
      unfold dictKeys
      rw [List.map_map]
      apply List.map_congr_left
      intro e he
      by_cases hk : e.1 = k
      · simp [hk]
      · simp [hk]
    rw [heq]
    exact h
  · rw [if_neg hc]
    have hnm : k ∉ dictKeys d := by
      intro hm
      exact hc (List.elem_eq_true_of_mem hm)
    have : dictKeys (d ++ [(k, v)]) = dictKeys d ++ [k] := by
      simp [dictKeys]
    rw [this]
    simpa [List.nodup_append] using ⟨h, fun hm => hnm hm⟩

theorem dictUpsert_forall (P : String × α → Prop) (d : List (String × α))
    (k : String) (v : α) (h : ∀ e ∈ d, P e) (hkv : P (k, v)) :
    ∀ e ∈ dictUpsert d k v, P e := by
  unfold dictUpsert
  by_cases hc : (dictKeys d).contains k = true
  · rw [if_pos hc]
    intro e he
    rcases List.mem_map.mp he with ⟨e', he', hfe⟩
    by_cases hk : e'.1 = k
    · rw [if_pos hk] at hfe
      subst hfe
      exact hkv
    · rw [if_neg hk] at hfe
      subst hfe
      exact h e' he'
  · rw [if_neg hc]
    intro e he
    rcases List.mem_append.mp he with hd | hs
    · exact h e hd
    · rcases List.mem_singleton.mp hs with rfl
      exact hkv

theorem foldl_preserve (Inv : β → Prop) (f : β → γ → β) (l : List γ) (init : β)
    (hstep : ∀ st e, e ∈ l → Inv st → Inv (f st e)) (hinit : Inv init) :
    Inv (l.foldl f init) := by
  induction l generalizing init with
  | nil => exact hinit
  | cons e rest ih =>
    exact ih (f init e)
      (fun st x hx hi => hstep st x (List.mem_cons_of_mem _ hx) hi)
      (hstep init e (List.mem_cons_self _ _) hinit)

/-- The well-formedness invariant of the player dict built by the
parser: unique keys, and every record stores its own key as its id. -/
def playersWF (d : List (String × LivePlayer)) : Prop :=
  (dictKeys d).Nodup ∧ ∀ e ∈ d, e.2.id = e.1

theorem playersWF_upsert (d : List (String × LivePlayer)) (k : String) (v : LivePlayer)
    (h : playersWF d) (hid : v.id = k) : playersWF (dictUpsert d k v) :=
  ⟨dictUpsert_keys_nodup d k v h.1,
   dictUpsert_forall _ d k v h.2 hid⟩

theorem plysPass1Step_WF (st : PlysPass1) (ln : String)
    (h : playersWF st.players) : playersWF (plysPass1Step st ln).players := by
  unfold plysPass1Step
  by_cases h1 : pyIn "Players connected" ln = true
  · rw [if_pos h1]
    exact h
  · rw [if_neg h1]
    by_cases h2 : (if pyStrip ln = "" then false else st.inConn) = true ∧
        ¬ pyStartsWith (pyStrip ln) "-" = true
    · rw [if_pos h2]
      cases hm : searchPC (pyStrip ln).data with
      | none => exact h
      | some r =>
        obtain ⟨g1, pid, nm, pf, ip, g6⟩ := r
        dsimp only
        exact playersWF_upsert _ _ _ h rfl
    · rw [if_neg h2]
      exact h

theorem plysPass2Step_WF (st : Bool × List (String × LivePlayer)) (ln : String)
    (h : playersWF st.2) : playersWF (plysPass2Step st ln).2 := by
  unfold plysPass2Step
  by_cases h1 : pyIn "Global players list" ln = true
  · rw [if_pos h1]
    exact h
  · rw [if_neg h1]
    by_cases h2 : (if pyStrip ln = "" then false else st.1) = true
    · rw [if_pos h2]
      cases hm : searchGP ln.data with
      | none => exact h
      | some r =>
        obtain ⟨pid, nm, fac, role, onl⟩ := r
        dsimp only
        cases hf : dictFind st.2 pid with
        | some p =>
          have hmem := dictFind_mem _ _ _ hf
          have hid : p.id = pid := h.2 (pid, p) hmem
          exact playersWF_upsert _ _ _ h hid
        | none =>
          exact playersWF_upsert _ _ _ h rfl
    · rw [if_neg h2]
      exact h

theorem plysPass3Step_WF (st : Bool × List (String × LivePlayer)) (ln : String)
    (h : playersWF st.2) : playersWF (plysPass3Step st ln).2 := by
  unfold plysPass3Step
  by_cases h1 : pyIn "Global online players list" ln = true
  · rw [if_pos h1]
    exact h
  · rw [if_neg h1]
    by_cases h2 : (if pyStrip ln = "" then false else st.1) = true
    · rw [if_pos h2]
      cases hm : searchGP ln.data with
      | none => exact h
      | some r =>
        obtain ⟨pid, nm, fac, role, onl⟩ := r
        dsimp only
        cases hf : dictFind st.2 pid with
        | some p =>
          have hmem := dictFind_mem _ _ _ hf
          have hid : p.id = pid := h.2 (pid, p) hmem
          exact playersWF_upsert _ _ _ h hid
        | none => exact h
    · rw [if_neg h2]
      exact h

/-- Claim C6: for every raw plys response, the parsed player list has
no two records with the same identifier and is sorted with online
records first and case-insensitively ascending names within each
status group; the merged list returned by the reconciliation engine is
sorted by the same order. -/
theorem playersWF_plysDict (rsp : String) :
    playersWF ((pySplitlines rsp).foldl plysPass3Step
      (false, ((pySplitlines rsp).foldl plysPass2Step
        (false, ((pySplitlines rsp).foldl plysPass1Step
          ⟨false, [], []⟩).players)).2)).2 := by
  have hwf1 : playersWF ((pySplitlines rsp).foldl plysPass1Step
      ⟨false, [], []⟩).players :=
    foldl_preserve (fun st => playersWF st.players) plysPass1Step (pySplitlines rsp)
      ⟨false, [], []⟩ (fun st e _ hi => plysPass1Step_WF st e hi)
      ⟨by simp [dictKeys], by simp⟩
  have hwf2 : playersWF ((pySplitlines rsp).foldl plysPass2Step
      (false, ((pySplitlines rsp).foldl plysPass1Step ⟨false, [], []⟩).players)).2 :=
    foldl_preserve (fun st => playersWF st.2) plysPass2Step (pySplitlines rsp)
      (false, ((pySplitlines rsp).foldl plysPass1Step ⟨false, [], []⟩).players)
      (fun st e _ hi => plysPass2Step_WF st e hi) hwf1
  exact foldl_preserve (fun st => playersWF st.2) plysPass3Step (pySplitlines rsp)
    (false, ((pySplitlines rsp).foldl plysPass2Step
      (false, ((pySplitlines rsp).foldl plysPass1Step ⟨false, [], []⟩).players)).2)
    (fun st e _ hi => plysPass3Step_WF st e hi) hwf2

theorem sortedDictNodupIds (d : List (String × LivePlayer)) (h : playersWF d) :
    (((d.map (·.2)).mergeSort livePlayerLe).map LivePlayer.id).Nodup := by
  have hmapid : (d.map (·.2)).map LivePlayer.id = dictKeys d := by
    rw [List.map_map]
    exact List.map_congr_left (fun e he => h.2 e he)
  have hnodup : ((d.map (·.2)).map LivePlayer.id).Nodup := by
    rw [hmapid]
    exact h.1
  have hperm : ((d.map (·.2)).mergeSort livePlayerLe).Perm (d.map (·.2)) :=
    List.mergeSort_perm _ _
  exact ((hperm.map LivePlayer.id).nodup_iff).mpr hnodup

/-- Claim C6: for every raw plys response, the parsed player list has
no two records with the same identifier and is sorted with online
records first and case-insensitively ascending names within each
status group; the merged list returned by the reconciliation engine is
sorted by the same order. -/
theorem c6_sorted_nodup (rsp : String) (known : List (String × CachePlayer))
    (live : List LivePlayer) (db : Db) (now : Nat) :
    ((getPlayerListFromPlys rsp).map LivePlayer.id).Nodup ∧
    List.Sorted (fun p q => livePlayerLe p q = true) (getPlayerListFromPlys rsp) ∧
    List.Sorted (fun p q => cachePlayerLe p q = true)
      (mergeResultList known live db now) := by
  refine ⟨?_, ?_, ?_⟩
  · exact sortedDictNodupIds _ (playersWF_plysDict rsp)
  · exact List.sorted_mergeSort
      (fun a b c => livePlayerLe_trans a b c)
      (fun a b => livePlayerLe_total a b) _
  · exact List.sorted_mergeSort
      (fun a b c => cachePlayerLe_trans a b c)
      (fun a b => cachePlayerLe_total a b) _

/-! ## Claim theorems: reconciliation engine (C4, C5) -/

theorem dictFind_upsert_self (d : List (String × α)) (k : String) (v : α) :
    dictFind (dictUpsert d k v) k = some v := by
  unfold dictUpsert
  by_cases hc : (dictKeys d).contains k = true
  · rw [if_pos hc]
    obtain ⟨c0, hc0⟩ := (dictContains_iff_find d k).mp hc
    rw [dictFind_map_update_self, hc0]
    rfl
  · rw [if_neg hc, dictFind_append, dictFind_eq_none_of_not_contains d k hc]
    simp [dictFind_cons]

theorem dictFind_upsert_other (d : List (String × α)) (k m : String) (v : α)
    (h : m ≠ k) : dictFind (dictUpsert d k v) m = dictFind d m := by
  unfold dictUpsert
  by_cases hc : (dictKeys d).contains k = true
  · rw [if_pos hc, dictFind_map_update_other _ _ _ _ h]
  · rw [if_neg hc, dictFind_append]
    cases hd : dictFind d m with
    | some v => simp
    | none =>
      rw [dictFind_cons, if_neg (Ne.symm h)]
      rfl

theorem dictKeys_map_update (d : List (String × α)) (k : String) (v : α) :
    dictKeys (d.map fun e => if e.1 = k then (k, v) else e) = dictKeys d := by
  unfold dictKeys
  rw [List.map_map]
  apply List.map_congr_left
  intro e he
  by_cases hk : e.1 = k
  · simp [hk]
  · simp [hk]

theorem dictKeys_upsert_mono (d : List (String × α)) (k a : String) (v : α)
    (h : a ∈ dictKeys d) : a ∈ dictKeys (dictUpsert d k v) := by
  unfold dictUpsert
  by_cases hc : (dictKeys d).contains k = true
  · rw [if_pos hc, dictKeys_map_update]
    exact h
  · rw [if_neg hc]
    unfold dictKeys at h ⊢
    rw [List.map_append]
    exact List.mem_append_left _ h

theorem mem_keys_of_find (d : List (String × α)) (k : String) (v : α)
    (h : dictFind d k = some v) : k ∈ dictKeys d :=
  List.mem_map.mpr ⟨(k, v), dictFind_mem d k v h, rfl⟩

theorem dictFind_map_rowf_self (d : List (String × β)) (n : String) (f : β → β) :
    dictFind (d.map fun e => if e.1 = n then (e.1, f e.2) else e) n =
      (dictFind d n).map f := by
  induction d with
  | nil => rfl
  | cons e rest ih =>
    obtain ⟨k, w⟩ := e
    by_cases h : k = n
    · subst h
      simp [dictFind_cons, ih]
    · simp [dictFind_cons, h, ih]

theorem dictFind_map_rowf_other (d : List (String × β)) (n m : String) (f : β → β)
    (h : m ≠ n) :
    dictFind (d.map fun e => if e.1 = n then (e.1, f e.2) else e) m = dictFind d m := by
  induction d with
  | nil => rfl
  | cons e rest ih =>
    obtain ⟨k, w⟩ := e
    by_cases he : k = n
    · subst he
      have hnm : ¬ k = m := fun hx => h hx.symm
      simp [dictFind_cons, hnm, ih]
    · simp [dictFind_cons, he, ih]

theorem dbUpdate_find_other (db : Db) (p : CachePlayer) (sc : Bool) (now : Nat)
    (pid : String) (h : pid ≠ p.id) :
    dictFind (dbUpdatePlayer db p sc now) pid = dictFind db pid := by
  unfold dbUpdatePlayer
  cases hf : dictFind db p.id with
  | some r => exact dictFind_map_rowf_other db p.id pid (dbRowUpdate p sc now) h
  | none =>
    rw [dictFind_append]
    cases hd : dictFind db pid with
    | some v => simp
    | none =>
      rw [dictFind_cons, if_neg (Ne.symm h)]
      rfl

theorem dbUpdate_find_self_found (db : Db) (p : CachePlayer) (sc : Bool) (now : Nat)
    (r0 : DbRow) (hf : dictFind db p.id = some r0) :
    dictFind (dbUpdatePlayer db p sc now) p.id = some (dbRowUpdate p sc now r0) := by
  unfold dbUpdatePlayer
  rw [hf]
  rw [dictFind_map_rowf_self, hf]
  rfl

theorem dbUpdate_find_self_missing (db : Db) (p : CachePlayer) (sc : Bool) (now : Nat)
    (hf : dictFind db p.id = none) :
    dictFind (dbUpdatePlayer db p sc now) p.id = some (dbRowInsert p now) := by
  unfold dbUpdatePlayer
  rw [hf, dictFind_append, hf]
  simp [dictFind_cons]

theorem tsLe_refl (a : Option Nat) : tsLe a a := by
  cases a <;> simp [tsLe]

theorem tsLe_of_evolves (now : Nat) (a b : Option Nat) (hb : tsBounded now a)
    (he : tsEvolves now a b) : tsLe a b := by
  rcases he with rfl | rfl
  · exact tsLe_refl _
  · cases a with
    | none => trivial
    | some x => exact hb

theorem dbReach_refl (now : Nat) (db : Db) : dbReach now db db :=
  fun _ r0 h => ⟨r0, h, Or.inl rfl, Or.inl rfl⟩

theorem dbReach_update (now : Nat) (db0 db : Db) (p : CachePlayer) (sc : Bool)
    (h : dbReach now db0 db) : dbReach now db0 (dbUpdatePlayer db p sc now) := by
  intro id r0 h0
  obtain ⟨r, hr, he1, he2⟩ := h id r0 h0
  by_cases hid : id = p.id
  · subst hid
    refine ⟨dbRowUpdate p sc now r, dbUpdate_find_self_found db p sc now r hr, ?_, ?_⟩
    · unfold tsEvolves at he1 ⊢
      by_cases hc : sc = true ∧ p.status = "Online"
      · simp [dbRowUpdate, hc]
      · simp only [dbRowUpdate, if_neg hc]
        exact he1
    · unfold tsEvolves at he2 ⊢
      by_cases hc : sc = true ∧ p.status ≠ "Online"
      · simp [dbRowUpdate, hc]
      · simp only [dbRowUpdate, if_neg hc]
        exact he2
  · rw [dbUpdate_find_other db p sc now id hid]
    exact ⟨r, hr, he1, he2⟩

theorem mergeKnownStep_reach (liveD : List (String × LivePlayer)) (now : Nat)
    (db0 : Db) (st : MergeSt) (e : String × CachePlayer)
    (h : dbReach now db0 st.db) :
    dbReach now db0 (mergeKnownStep liveD now st e).db := by
  unfold mergeKnownStep
  dsimp only
  split
  · split
    · exact dbReach_update now db0 st.db _ _ h
    · exact h
  · split
    · exact dbReach_update now db0 st.db _ _ h
    · exact h

theorem mergeNewStep_reach (now : Nat) (db0 : Db) (st : MergeSt)
    (e : String × LivePlayer) (h : dbReach now db0 st.db) :
    dbReach now db0 (mergeNewStep now st e).db := by
  unfold mergeNewStep
  dsimp only
  split
  · exact h
  · exact dbReach_update now db0 st.db _ _ h

theorem mergeLiveData_reach (known : List (String × CachePlayer))
    (live : List LivePlayer) (db : Db) (now : Nat) :
    dbReach now db (mergeLiveData known live db now).db := by
  unfold mergeLiveData
  apply foldl_preserve (fun st => dbReach now db st.db) (mergeNewStep now) (liveDict live)
  · intro st e _ hi
    exact mergeNewStep_reach now db st e hi
  · apply foldl_preserve (fun st => dbReach now db st.db)
      (mergeKnownStep (liveDict live) now) known
    · intro st e _ hi
      exact mergeKnownStep_reach (liveDict live) now db st e hi
    · exact dbReach_refl now db

theorem writesFor_append_ne (sid : String) (ws : List (String × Bool))
    (e : String × Bool) (h : e.1 ≠ sid) :
    writesFor sid (ws ++ [e]) = writesFor sid ws := by
  induction ws with
  | nil => simp [writesFor, h]
  | cons x rest ih =>
    by_cases hx : x.1 = sid <;> simp [writesFor, hx, ih]

theorem writesFor_append_eq (sid : String) (ws : List (String × Bool))
    (e : String × Bool) (h : e.1 = sid) :
    writesFor sid (ws ++ [e]) = writesFor sid ws ++ [e] := by
  induction ws with
  | nil => simp [writesFor, h]
  | cons x rest ih =>
    by_cases hx : x.1 = sid <;> simp [writesFor, hx, ih]

theorem mergeKnownStep_preserve_other (liveD : List (String × LivePlayer)) (now : Nat)
    (st : MergeSt) (e : String × CachePlayer) (sid : String)
    (hid : e.2.id = e.1) (hne : e.1 ≠ sid) :
    dictFind (mergeKnownStep liveD now st e).merged sid = dictFind st.merged sid ∧
    dictFind (mergeKnownStep liveD now st e).db sid = dictFind st.db sid ∧
    writesFor sid (mergeKnownStep liveD now st e).writes = writesFor sid st.writes := by
  unfold mergeKnownStep
  dsimp only
  split
  · split
    · refine ⟨dictFind_upsert_other _ _ _ _ (Ne.symm hne), ?_,
        writesFor_append_ne _ _ _ hne⟩
      exact dbUpdate_find_other _ _ _ _ _ (Ne.symm hne)
    · exact ⟨dictFind_upsert_other _ _ _ _ (Ne.symm hne), rfl, rfl⟩
  · split
    · refine ⟨dictFind_upsert_other _ _ _ _ (Ne.symm hne), ?_,
        writesFor_append_ne _ _ _ hne⟩
      have hne2 : sid ≠ ({ e.2 with status := "Offline", ip := "", playfield := "" }
          : CachePlayer).id := by
        dsimp only
        rw [hid]
        exact Ne.symm hne
      exact dbUpdate_find_other _ _ _ _ _ hne2
    · exact ⟨rfl, rfl, rfl⟩

theorem mergeKnownStep_keys_mono (liveD : List (String × LivePlayer)) (now : Nat)
    (st : MergeSt) (e : String × CachePlayer) (sid : String)
    (hin : sid ∈ dictKeys st.merged) :
    sid ∈ dictKeys (mergeKnownStep liveD now st e).merged := by
  unfold mergeKnownStep
  dsimp only
  split
  · split
    · exact dictKeys_upsert_mono _ _ _ _ hin
    · exact dictKeys_upsert_mono _ _ _ _ hin
  · split
    · exact dictKeys_upsert_mono _ _ _ _ hin
    · exact hin

theorem mergeNewStep_preserve (now : Nat) (st : MergeSt) (e : String × LivePlayer)
    (sid : String) (hin : sid ∈ dictKeys st.merged) :
    dictFind (mergeNewStep now st e).merged sid = dictFind st.merged sid ∧
    dictFind (mergeNewStep now st e).db sid = dictFind st.db sid ∧
    writesFor sid (mergeNewStep now st e).writes = writesFor sid st.writes ∧
    sid ∈ dictKeys (mergeNewStep now st e).merged := by
  unfold mergeNewStep
  dsimp only
  by_cases hc : (dictKeys st.merged).contains e.1 = true
  · rw [if_pos hc]
    exact ⟨rfl, rfl, rfl, hin⟩
  · rw [if_neg hc]
    have hne : e.1 ≠ sid := by
      intro he
      subst he
      exact hc (List.elem_eq_true_of_mem hin)
    exact ⟨dictFind_upsert_other _ _ _ _ (Ne.symm hne),
           dbUpdate_find_other _ _ _ _ _ (Ne.symm hne),
           writesFor_append_ne _ _ _ hne,
           dictKeys_upsert_mono _ _ _ _ hin⟩

theorem dictFind_split (d : List (String × α)) (k : String) (v : α)
    (h : dictFind d k = some v) :
    ∃ l1 l2, d = l1 ++ (k, v) :: l2 ∧ k ∉ dictKeys l1 := by
  induction d with
  | nil => simp [dictFind] at h
  | cons e rest ih =>
    obtain ⟨k', w⟩ := e
    rw [dictFind_cons] at h
    by_cases hk : k' = k
    · rw [if_pos hk] at h
      injection h with h
      subst hk
      subst h
      exact ⟨[], rest, rfl, by simp [dictKeys]⟩
    · rw [if_neg hk] at h
      obtain ⟨l1, l2, hd, hni⟩ := ih h
      refine ⟨(k', w) :: l1, l2, by rw [hd]; rfl, ?_⟩
      intro hmem
      rcases List.mem_cons.mp hmem with h1 | h2
      · exact hk h1.symm
      · exact hni h2

theorem keys_nodup_split (l1 l2 : List (String × α)) (k : String) (v : α)
    (h : (dictKeys (l1 ++ (k, v) :: l2)).Nodup) :
    k ∉ dictKeys l1 ∧ k ∉ dictKeys l2 := by
  have heq : dictKeys (l1 ++ (k, v) :: l2) = dictKeys l1 ++ k :: dictKeys l2 := by
    simp [dictKeys]
  rw [heq] at h
  rcases List.nodup_append.mp h with ⟨h1, h2, hdis⟩
  rcases List.nodup_cons.mp h2 with ⟨hk2, _⟩
  exact ⟨fun hin => hdis hin (List.mem_cons_self _ _), hk2⟩

theorem mem_keys_of_mem (d : List (String × α)) (e : String × α) (h : e ∈ d) :
    e.1 ∈ dictKeys d :=
  List.mem_map.mpr ⟨e, h, rfl⟩

/-- Claim C4: a poll cycle writes a known player's stored seen
timestamps only on a true status transition: when the status the cycle
observes for the player equals the cached status (the player may still
change name, faction, or role), the row's lastSeenOnline and
lastSeenOffline survive the cycle unchanged; and for every player, the
seen timestamps after the cycle are at least those before it, given
that no stored timestamp lies in the future of the cycle. -/
theorem c4_timestamp_discipline (known : List (String × CachePlayer))
    (live : List LivePlayer) (db : Db) (now : Nat) (sid : String) (kp : CachePlayer)
    (hwf : ∀ e ∈ known, e.2.id = e.1)
    (hnd : (dictKeys known).Nodup)
    (hkp : dictFind known sid = some kp)
    (hnt1 : ∀ lp, dictFind (liveDict live) sid = some lp → kp.status = lp.status)
    (hnt2 : dictFind (liveDict live) sid = none → kp.status ≠ "Online") :
    (∀ r0, dictFind db sid = some r0 →
      ∃ r1, dictFind (mergeLiveData known live db now).db sid = some r1 ∧
        r1.lastSeenOnline = r0.lastSeenOnline ∧
        r1.lastSeenOffline = r0.lastSeenOffline) ∧
    (dbBounded now db →
      ∀ pid r0 r1, dictFind db pid = some r0 →
        dictFind (mergeLiveData known live db now).db pid = some r1 →
        tsLe r0.lastSeenOnline r1.lastSeenOnline ∧
        tsLe r0.lastSeenOffline r1.lastSeenOffline) := by
  constructor
  · intro r0 h0
    obtain ⟨l1, l2, hsplit, _⟩ := dictFind_split known sid kp hkp
    have hkeys : sid ∉ dictKeys l1 ∧ sid ∉ dictKeys l2 := by
      rw [hsplit] at hnd
      exact keys_nodup_split l1 l2 sid kp hnd
    have hfold : ∀ I : MergeSt,
        known.foldl (mergeKnownStep (liveDict live) now) I =
          l2.foldl (mergeKnownStep (liveDict live) now)
            (mergeKnownStep (liveDict live) now
              (l1.foldl (mergeKnownStep (liveDict live) now) I) (sid, kp)) := by
      intro I
      rw [hsplit, List.foldl_append, List.foldl_cons]
    have hres : (mergeLiveData known live db now).db =
        ((liveDict live).foldl (mergeNewStep now)
          (l2.foldl (mergeKnownStep (liveDict live) now)
            (mergeKnownStep (liveDict live) now
              (l1.foldl (mergeKnownStep (liveDict live) now) ⟨known, db, []⟩)
              (sid, kp)))).db := by
      unfold mergeLiveData
      dsimp only
      rw [hfold]
    have hA : dictFind (l1.foldl (mergeKnownStep (liveDict live) now)
          ⟨known, db, []⟩).db sid = dictFind db sid ∧
        sid ∈ dictKeys (l1.foldl (mergeKnownStep (liveDict live) now)
          ⟨known, db, []⟩).merged :=
      foldl_preserve (fun st =>
        dictFind st.db sid = dictFind db sid ∧ sid ∈ dictKeys st.merged)
        (mergeKnownStep (liveDict live) now) l1 ⟨known, db, []⟩
        (fun st e he hi => by
          have hne : e.1 ≠ sid := by
            intro hx
            exact hkeys.1 (hx ▸ mem_keys_of_mem l1 e he)
          have hid : e.2.id = e.1 := hwf e (by
            rw [hsplit]
            exact List.mem_append_left _ he)
          obtain ⟨_, hd, _⟩ :=
            mergeKnownStep_preserve_other (liveDict live) now st e sid hid hne
          exact ⟨by rw [hd]; exact hi.1, mergeKnownStep_keys_mono _ _ _ _ _ hi.2⟩)
        ⟨rfl, mem_keys_of_find known sid kp hkp⟩
    have hB : (∃ r1, dictFind (mergeKnownStep (liveDict live) now
          (l1.foldl (mergeKnownStep (liveDict live) now) ⟨known, db, []⟩)
          (sid, kp)).db sid = some r1 ∧
          r1.lastSeenOnline = r0.lastSeenOnline ∧
          r1.lastSeenOffline = r0.lastSeenOffline) ∧
        sid ∈ dictKeys (mergeKnownStep (liveDict live) now
          (l1.foldl (mergeKnownStep (liveDict live) now) ⟨known, db, []⟩)
          (sid, kp)).merged := by
      set stA := l1.foldl (mergeKnownStep (liveDict live) now) ⟨known, db, []⟩ with hstA
      have hfindA : dictFind stA.db sid = some r0 := by rw [hA.1]; exact h0
      constructor
      · unfold mergeKnownStep
        dsimp only
        cases hl : dictFind (liveDict live) sid with
        | some lp =>
          have hseq : kp.status = lp.status := hnt1 lp hl
          have hsc : decide (kp.status ≠ lp.status) = false := by simp [hseq]
          dsimp only
          rw [hsc]
          split
          · dsimp only
            refine ⟨_, dbUpdate_find_self_found stA.db _ false now r0 hfindA, ?_, ?_⟩
            · simp [dbRowUpdate]
            · simp [dbRowUpdate]
          · exact ⟨r0, hfindA, rfl, rfl⟩
        | none =>
          have hoff : ¬ kp.status = "Online" := hnt2 hl
          dsimp only
          rw [if_neg hoff]
          exact ⟨r0, hfindA, rfl, rfl⟩
      · exact mergeKnownStep_keys_mono _ _ _ _ _ hA.2
    have hC : (∃ r1, dictFind (l2.foldl (mergeKnownStep (liveDict live) now)
          (mergeKnownStep (liveDict live) now
            (l1.foldl (mergeKnownStep (liveDict live) now) ⟨known, db, []⟩)
            (sid, kp))).db sid = some r1 ∧
          r1.lastSeenOnline = r0.lastSeenOnline ∧
          r1.lastSeenOffline = r0.lastSeenOffline) ∧
        sid ∈ dictKeys (l2.foldl (mergeKnownStep (liveDict live) now)
          (mergeKnownStep (liveDict live) now
            (l1.foldl (mergeKnownStep (liveDict live) now) ⟨known, db, []⟩)
            (sid, kp))).merged :=
      foldl_preserve (fun st =>
        (∃ r1, dictFind st.db sid = some r1 ∧
          r1.lastSeenOnline = r0.lastSeenOnline ∧
          r1.lastSeenOffline = r0.lastSeenOffline) ∧ sid ∈ dictKeys st.merged)
        (mergeKnownStep (liveDict live) now) l2
        (mergeKnownStep (liveDict live) now
          (l1.foldl (mergeKnownStep (liveDict live) now) ⟨known, db, []⟩) (sid, kp))
        (fun st e he hi => by
          have hne : e.1 ≠ sid := by
            intro hx
            exact hkeys.2 (hx ▸ mem_keys_of_mem l2 e he)
          have hid : e.2.id = e.1 := hwf e (by
            rw [hsplit]
            exact List.mem_append_right _ (List.mem_cons_of_mem _ he))
          obtain ⟨_, hd, _⟩ :=
            mergeKnownStep_preserve_other (liveDict live) now st e sid hid hne
          obtain ⟨⟨r1, hr1, hts⟩, hk⟩ := hi
          exact ⟨⟨r1, by rw [hd]; exact hr1, hts⟩,
            mergeKnownStep_keys_mono _ _ _ _ _ hk⟩)
        hB
    have hD : (∃ r1, dictFind ((liveDict live).foldl (mergeNewStep now)
          (l2.foldl (mergeKnownStep (liveDict live) now)
            (mergeKnownStep (liveDict live) now
              (l1.foldl (mergeKnownStep (liveDict live) now) ⟨known, db, []⟩)
              (sid, kp)))).db sid = some r1 ∧
          r1.lastSeenOnline = r0.lastSeenOnline ∧
          r1.lastSeenOffline = r0.lastSeenOffline) := by
      have := foldl_preserve (fun st =>
        (∃ r1, dictFind st.db sid = some r1 ∧
          r1.lastSeenOnline = r0.lastSeenOnline ∧
          r1.lastSeenOffline = r0.lastSeenOffline) ∧ sid ∈ dictKeys st.merged)
        (mergeNewStep now) (liveDict live) _
        (fun st e _ hi => by
          obtain ⟨hm, hd, hw, hk⟩ := mergeNewStep_preserve now st e sid hi.2
          obtain ⟨⟨r1, hr1, hts⟩, _⟩ := hi
          exact ⟨⟨r1, by rw [hd]; exact hr1, hts⟩, hk⟩) hC
      exact this.1
    rw [hres]
    exact hD
  · intro hb pid r0 r1 h0 h1
    obtain ⟨r, hr, he1, he2⟩ := mergeLiveData_reach known live db now pid r0 h0
    rw [hr] at h1
    injection h1 with h1
    subst h1
    have hbd := hb _ (dictFind_mem _ _ _ h0)
    exact ⟨tsLe_of_evolves _ _ _ hbd.1 he1, tsLe_of_evolves _ _ _ hbd.2 he2⟩

theorem dbUpdate_find_key (db : Db) (p : CachePlayer) (sc : Bool) (now : Nat)
    (pid : String) (r0 : DbRow) (hpid : p.id = pid)
    (hf : dictFind db pid = some r0) :
    dictFind (dbUpdatePlayer db p sc now) pid = some (dbRowUpdate p sc now r0) := by
  subst hpid
  exact dbUpdate_find_self_found db p sc now r0 hf

theorem mergeKnownStep_absent_online (liveD : List (String × LivePlayer)) (now : Nat)
    (st : MergeSt) (sid : String) (kp : CachePlayer)
    (hl : dictFind liveD sid = none) (hon : kp.status = "Online") :
    mergeKnownStep liveD now st (sid, kp) =
      { merged := dictUpsert st.merged sid
          { kp with status := "Offline", ip := "", playfield := "" },
        db := dbUpdatePlayer st.db
          { kp with status := "Offline", ip := "", playfield := "" } true now,
        writes := st.writes ++ [(sid, true)] } := by
  unfold mergeKnownStep
  dsimp only
  rw [hl]
  dsimp only
  rw [if_pos hon]

theorem mergeKnownStep_absent_not_online (liveD : List (String × LivePlayer)) (now : Nat)
    (st : MergeSt) (sid : String) (kp : CachePlayer)
    (hl : dictFind liveD sid = none) (hoff : ¬ kp.status = "Online") :
    mergeKnownStep liveD now st (sid, kp) = st := by
  unfold mergeKnownStep
  dsimp only
  rw [hl]
  dsimp only
  rw [if_neg hoff]

/-- Claim C5: a known player cached as Online whose id is absent from
the live list is forced Offline with empty ip and playfield in the
merged registry, and the cycle performs exactly one database write for
that id, flagged as a status transition, which stamps the row through
dbRowUpdate with the transition flag set (so lastSeenOffline becomes
now); a known player already Offline and absent from the live list
causes no write for that id at all, and its row and cached record are
left untouched. -/
theorem c5_absent_player (known : List (String × CachePlayer)) (live : List LivePlayer)
    (db : Db) (now : Nat) (sid : String) (kp : CachePlayer)
    (hwf : ∀ e ∈ known, e.2.id = e.1)
    (hnd : (dictKeys known).Nodup)
    (hkp : dictFind known sid = some kp)
    (habs : dictFind (liveDict live) sid = none) :
    (kp.status = "Online" →
      dictFind (mergeLiveData known live db now).merged sid =
        some { kp with status := "Offline", ip := "", playfield := "" } ∧
      writesFor sid (mergeLiveData known live db now).writes = [(sid, true)] ∧
      (∀ r0, dictFind db sid = some r0 →
        dictFind (mergeLiveData known live db now).db sid =
          some (dbRowUpdate { kp with status := "Offline", ip := "", playfield := "" }
            true now r0))) ∧
    (kp.status = "Offline" →
      dictFind (mergeLiveData known live db now).merged sid = some kp ∧
      writesFor sid (mergeLiveData known live db now).writes = [] ∧
      dictFind (mergeLiveData known live db now).db sid = dictFind db sid) := by
  obtain ⟨l1, l2, hsplit, _⟩ := dictFind_split known sid kp hkp
  have hkeys : sid ∉ dictKeys l1 ∧ sid ∉ dictKeys l2 := by
    rw [hsplit] at hnd
    exact keys_nodup_split l1 l2 sid kp hnd
  have hkid : kp.id = sid := hwf (sid, kp) (dictFind_mem known sid kp hkp)
  have hfold : ∀ I : MergeSt,
      known.foldl (mergeKnownStep (liveDict live) now) I =
        l2.foldl (mergeKnownStep (liveDict live) now)
          (mergeKnownStep (liveDict live) now
            (l1.foldl (mergeKnownStep (liveDict live) now) I) (sid, kp)) := by
    intro I
    rw [hsplit, List.foldl_append, List.foldl_cons]
  have hres : mergeLiveData known live db now =
      (liveDict live).foldl (mergeNewStep now)
        (l2.foldl (mergeKnownStep (liveDict live) now)
          (mergeKnownStep (liveDict live) now
            (l1.foldl (mergeKnownStep (liveDict live) now) ⟨known, db, []⟩)
            (sid, kp))) := by
    unfold mergeLiveData
    dsimp only
    rw [hfold]
  have hA : dictFind (l1.foldl (mergeKnownStep (liveDict live) now)
        ⟨known, db, []⟩).merged sid = some kp ∧
      dictFind (l1.foldl (mergeKnownStep (liveDict live) now)
        ⟨known, db, []⟩).db sid = dictFind db sid ∧
      writesFor sid (l1.foldl (mergeKnownStep (liveDict live) now)
        ⟨known, db, []⟩).writes = [] ∧
      sid ∈ dictKeys (l1.foldl (mergeKnownStep (liveDict live) now)
        ⟨known, db, []⟩).merged :=
    foldl_preserve (fun st =>
      dictFind st.merged sid = some kp ∧
      dictFind st.db sid = dictFind db sid ∧
      writesFor sid st.writes = [] ∧
      sid ∈ dictKeys st.merged)
      (mergeKnownStep (liveDict live) now) l1 ⟨known, db, []⟩
      (fun st e he hi => by
        have hne : e.1 ≠ sid := by
          intro hx
          exact hkeys.1 (hx ▸ mem_keys_of_mem l1 e he)
        have hid : e.2.id = e.1 := hwf e (by
          rw [hsplit]
          exact List.mem_append_left _ he)
        obtain ⟨hm, hd, hw⟩ :=
          mergeKnownStep_preserve_other (liveDict live) now st e sid hid hne
        exact ⟨by rw [hm]; exact hi.1, by rw [hd]; exact hi.2.1,
          by rw [hw]; exact hi.2.2.1, mergeKnownStep_keys_mono _ _ _ _ _ hi.2.2.2⟩)
      (by exact ⟨hkp, rfl, rfl, mem_keys_of_find known sid kp hkp⟩)
  constructor
  · intro hon
    set stA := l1.foldl (mergeKnownStep (liveDict live) now) ⟨known, db, []⟩ with hstA
    have hstep := mergeKnownStep_absent_online (liveDict live) now stA sid kp habs hon
    have hB : dictFind (mergeKnownStep (liveDict live) now stA (sid, kp)).merged sid =
          some { kp with status := "Offline", ip := "", playfield := "" } ∧
        writesFor sid (mergeKnownStep (liveDict live) now stA (sid, kp)).writes =
          [(sid, true)] ∧
        (∀ r0, dictFind db sid = some r0 →
          dictFind (mergeKnownStep (liveDict live) now stA (sid, kp)).db sid =
            some (dbRowUpdate { kp with status := "Offline", ip := "", playfield := "" }
              true now r0)) ∧
        sid ∈ dictKeys (mergeKnownStep (liveDict live) now stA (sid, kp)).merged := by
      rw [hstep]
      refine ⟨dictFind_upsert_self _ _ _, ?_, ?_, ?_⟩
      · dsimp only
        rw [writesFor_append_eq sid stA.writes (sid, true) rfl, hA.2.2.1]
        rfl
      · intro r0 h0
        dsimp only
        refine dbUpdate_find_key stA.db _ true now sid r0 hkid ?_
        rw [hA.2.1]
        exact h0
      · dsimp only
        have := dictKeys_upsert_mono stA.merged sid sid
          { kp with status := "Offline", ip := "", playfield := "" } hA.2.2.2
        exact this
    have hC : dictFind (l2.foldl (mergeKnownStep (liveDict live) now)
          (mergeKnownStep (liveDict live) now stA (sid, kp))).merged sid =
          some { kp with status := "Offline", ip := "", playfield := "" } ∧
        writesFor sid (l2.foldl (mergeKnownStep (liveDict live) now)
          (mergeKnownStep (liveDict live) now stA (sid, kp))).writes = [(sid, true)] ∧
        (∀ r0, dictFind db sid = some r0 →
          dictFind (l2.foldl (mergeKnownStep (liveDict live) now)
            (mergeKnownStep (liveDict live) now stA (sid, kp))).db sid =
            some (dbRowUpdate { kp with status := "Offline", ip := "", playfield := "" }
              true now r0)) ∧
        sid ∈ dictKeys (l2.foldl (mergeKnownStep (liveDict live) now)
          (mergeKnownStep (liveDict live) now stA (sid, kp))).merged :=
      foldl_preserve (fun st =>
        dictFind st.merged sid =
          some { kp with status := "Offline", ip := "", playfield := "" } ∧
        writesFor sid st.writes = [(sid, true)] ∧
        (∀ r0, dictFind db sid = some r0 →
          dictFind st.db sid =
            some (dbRowUpdate { kp with status := "Offline", ip := "", playfield := "" }
              true now r0)) ∧
        sid ∈ dictKeys st.merged)
        (mergeKnownStep (liveDict live) now) l2
        (mergeKnownStep (liveDict live) now stA (sid, kp))
        (fun st e he hi => by
          have hne : e.1 ≠ sid := by
            intro hx
            exact hkeys.2 (hx ▸ mem_keys_of_mem l2 e he)
          have hid : e.2.id = e.1 := hwf e (by
            rw [hsplit]
            exact List.mem_append_right _ (List.mem_cons_of_mem _ he))
          obtain ⟨hm, hd, hw⟩ :=
            mergeKnownStep_preserve_other (liveDict live) now st e sid hid hne
          exact ⟨by rw [hm]; exact hi.1, by rw [hw]; exact hi.2.1,
            fun r0 h0 => by rw [hd]; exact hi.2.2.1 r0 h0,
            mergeKnownStep_keys_mono _ _ _ _ _ hi.2.2.2⟩)
        hB
    have hD := foldl_preserve (fun st =>
        dictFind st.merged sid =
          some { kp with status := "Offline", ip := "", playfield := "" } ∧
        writesFor sid st.writes = [(sid, true)] ∧
        (∀ r0, dictFind db sid = some r0 →
          dictFind st.db sid =
            some (dbRowUpdate { kp with status := "Offline", ip := "", playfield := "" }
              true now r0)) ∧
        sid ∈ dictKeys st.merged)
        (mergeNewStep now) (liveDict live)
        (l2.foldl (mergeKnownStep (liveDict live) now)
          (mergeKnownStep (liveDict live) now stA (sid, kp)))
        (fun st e _ hi => by
          obtain ⟨hm, hd, hw, hk⟩ := mergeNewStep_preserve now st e sid hi.2.2.2
          exact ⟨by rw [hm]; exact hi.1, by rw [hw]; exact hi.2.1,
            fun r0 h0 => by rw [hd]; exact hi.2.2.1 r0 h0, hk⟩)
        hC
    rw [hres]
    exact ⟨hD.1, hD.2.1, hD.2.2.1⟩
  · intro hoff
    set stA := l1.foldl (mergeKnownStep (liveDict live) now) ⟨known, db, []⟩ with hstA
    have hstep := mergeKnownStep_absent_not_online (liveDict live) now stA sid kp habs
      (by rw [hoff]; decide)
    have hB : dictFind (mergeKnownStep (liveDict live) now stA (sid, kp)).merged sid =
          some kp ∧
        writesFor sid (mergeKnownStep (liveDict live) now stA (sid, kp)).writes = [] ∧
        dictFind (mergeKnownStep (liveDict live) now stA (sid, kp)).db sid =
          dictFind db sid ∧
        sid ∈ dictKeys (mergeKnownStep (liveDict live) now stA (sid, kp)).merged := by
      rw [hstep]
      exact ⟨hA.1, hA.2.2.1, hA.2.1, hA.2.2.2⟩
    have hC := foldl_preserve (fun st =>
        dictFind st.merged sid = some kp ∧
        writesFor sid st.writes = [] ∧
        dictFind st.db sid = dictFind db sid ∧
        sid ∈ dictKeys st.merged)
        (mergeKnownStep (liveDict live) now) l2
        (mergeKnownStep (liveDict live) now stA (sid, kp))
        (fun st e he hi => by
          have hne : e.1 ≠ sid := by
            intro hx
            exact hkeys.2 (hx ▸ mem_keys_of_mem l2 e he)
          have hid : e.2.id = e.1 := hwf e (by
            rw [hsplit]
            exact List.mem_append_right _ (List.mem_cons_of_mem _ he))
          obtain ⟨hm, hd, hw⟩ :=
            mergeKnownStep_preserve_other (liveDict live) now st e sid hid hne
          exact ⟨by rw [hm]; exact hi.1, by rw [hw]; exact hi.2.1,
            by rw [hd]; exact hi.2.2.1, mergeKnownStep_keys_mono _ _ _ _ _ hi.2.2.2⟩)
        hB
    have hD := foldl_preserve (fun st =>
        dictFind st.merged sid = some kp ∧
        writesFor sid st.writes = [] ∧
        dictFind st.db sid = dictFind db sid ∧
        sid ∈ dictKeys st.merged)
        (mergeNewStep now) (liveDict live)
        (l2.foldl (mergeKnownStep (liveDict live) now)
          (mergeKnownStep (liveDict live) now stA (sid, kp)))
        (fun st e _ hi => by
          obtain ⟨hm, hd, hw, hk⟩ := mergeNewStep_preserve now st e sid hi.2.2.2
          exact ⟨by rw [hm]; exact hi.1, by rw [hw]; exact hi.2.1,
            by rw [hd]; exact hi.2.2.1, hk⟩)
        hC
    rw [hres]
    exact ⟨hD.1, hD.2.1, hD.2.2.1⟩

/-- Claim C4, witness: one cached offline player, absent from an empty
live feed, with an existing database row; the row's timestamps survive
the cycle. -/
theorem c4_witness :
    ∃ r1, dictFind (mergeLiveData
        [("s1", ⟨"s1", "Zeta", "", "", "Offline", "", "",
          some 10, some 20, some 5, some 20⟩)]
        [] [("s1", ⟨"Zeta", "", "", some 10, some 20, some 5, some 20⟩)] 100).db "s1" =
        some r1 ∧
      r1.lastSeenOnline = some 10 ∧ r1.lastSeenOffline = some 20 :=
  (c4_timestamp_discipline
    [("s1", ⟨"s1", "Zeta", "", "", "Offline", "", "",
      some 10, some 20, some 5, some 20⟩)]
    [] [("s1", ⟨"Zeta", "", "", some 10, some 20, some 5, some 20⟩)] 100 "s1"
    ⟨"s1", "Zeta", "", "", "Offline", "", "", some 10, some 20, some 5, some 20⟩
    (by decide) (by decide) (by decide)
    (fun lp h => Option.noConfusion h)
    (fun _ => by decide)).1
    ⟨"Zeta", "", "", some 10, some 20, some 5, some 20⟩ (by decide)

/-- Claim C5, witness: one cached online player absent from an empty
live feed is forced offline in the merged registry. -/
theorem c5_witness :
    dictFind (mergeLiveData
        [("s1", ⟨"s1", "Zeta", "AB", "Player", "Online", "1.2.3.4", "Akua",
          some 10, some 5, some 1, some 10⟩)] [] [] 100).merged "s1" =
      some ⟨"s1", "Zeta", "AB", "Player", "Offline", "", "",
        some 10, some 5, some 1, some 10⟩ :=
  ((c5_absent_player
    [("s1", ⟨"s1", "Zeta", "AB", "Player", "Online", "1.2.3.4", "Akua",
      some 10, some 5, some 1, some 10⟩)] [] [] 100 "s1"
    ⟨"s1", "Zeta", "AB", "Player", "Online", "1.2.3.4", "Akua",
      some 10, some 5, some 1, some 10⟩
    (by decide) (by decide) (by decide) (by decide)).1 (by decide)).1

end EmpyrionHelper
